import Mathlib

/-!
# Verification of lazy.js (lazily evaluated, memoized test properties)

The repository contains two variants of the same engine:

* `src/lazy.js` — the "flag-based" variant: `lazy(context, method)` with
  `method = method || 'lazy'`, installs `context[method]` by plain
  assignment; each declared slot keeps a closure pair `(subject, isMemoized)`;
  the getter sets `isMemoized = true` *before* invoking the subject and the
  property descriptor omits `enumerable` (so declared properties are
  non-enumerable).

* `src/unnamed/part_000` — the "self-rewriting" variant:
  `method = method || 'set'`, installs `context[method]` with
  `Object.defineProperty(context, method, {value: ...})` (non-writable,
  non-enumerable, non-configurable); each declared slot keeps only `subject`;
  the getter writes the resolved value back through `context[name] = ...`
  (which goes through the accessor's own setter) and the descriptor says
  `enumerable: true`.

We shallowly embed both variants.  JS objects are modelled as association
lists from property names to property descriptors, preserving insertion
order (JS string-keyed own properties enumerate in insertion order).
Factories are modelled as opaque callables carrying an identity, a
"mocked" flag (standing for `typeof subject.getCall === 'function'`) and a
behaviour that either returns a value or throws; getters report the list of
callable identities they invoked, which lets us state "invoked exactly
once" claims.  Sloppy-mode JS semantics are used throughout (assignment to
a non-writable property and deletion of a non-configurable property fail
silently; `Object.defineProperty` on a non-configurable property throws a
`TypeError`).
-/

namespace LazyJs

mutual
/-- JS values reaching the engine: `null`/`undefined` (collapsed to `vnull`,
the engine never distinguishes them), opaque non-callable literals tagged by
a number, and callables.  A callable carries an identity `fid`, whether it
exposes the `getCall` introspection property (the sinon mock/spy heuristic
in both getters), and what invoking it does. -/
inductive JsVal where
  | vnull : JsVal
  | prim : Nat → JsVal
  | func : Nat → Bool → FnBody → JsVal
deriving DecidableEq

/-- Behaviour of a callable when invoked with no arguments: return a value
or throw an exception tagged by a number. -/
inductive FnBody where
  | ret : JsVal → FnBody
  | thrw : Nat → FnBody
deriving DecidableEq
end

/-- `typeof subject === 'function'`. -/
def JsVal.isFunction : JsVal → Bool
  | .func _ _ _ => true
  | _ => false

/-- A plain (non-mocked) callable: the only kind of value either getter
ever invokes (`isFunction && !isMocked`). -/
def JsVal.isPlainFn : JsVal → Bool
  | .func _ false _ => true
  | _ => false

/-- Exceptions the embedding can observe: the `TypeError` thrown by
`Object.defineProperty` on an incompatible property, or a user exception
(tag) thrown by a factory body. -/
inductive Err where
  | typeErr : Err
  | thrown : Nat → Err
deriving DecidableEq

/-- Result of reading `context[name]`: a value, the installed declaration
function itself (a host closure, not a `JsVal`), `undefined` for an absent
property, or a propagated exception. -/
inductive ReadResult where
  | val : JsVal → ReadResult
  | declFn : ReadResult
  | undef : ReadResult
  | err : Err → ReadResult
deriving DecidableEq

/-! ## Association-list object model (insertion ordered, keys unique by
construction through the operations below) -/

/-- First binding of `n`, if any. -/
def lookupProp {α : Type} : List (String × α) → String → Option α
  | [], _ => none
  | (k, p) :: ps, n => if k = n then some p else lookupProp ps n

/-- Replace the binding of `n` in place if present, otherwise append —
exactly how `Object.defineProperty`/assignment keep or create a key without
changing enumeration order. -/
def setProp {α : Type} : List (String × α) → String → α → List (String × α)
  | [], n, p => [(n, p)]
  | (k, q) :: ps, n, p => if k = n then (n, p) :: ps else (k, q) :: setProp ps n p

/-- Remove the binding of `n` (the effect of a successful `delete`).  A JS
object has at most one own property per key, and every operation below
preserves key uniqueness, so removing every binding of `n` coincides with
removing the one binding. -/
def removeProp {α : Type} : List (String × α) → String → List (String × α)
  | [], _ => []
  | (k, q) :: ps, n => if k = n then removeProp ps n else (k, q) :: removeProp ps n

/-! ## Variant A: `src/lazy.js` (flag-based) -/

/-- Own property of a context under variant A.
`dataProp v w e c`: ordinary data property with `writable`/`enumerable`/
`configurable` attributes.  `declMethod w e c`: the declaration function
installed by `lazy` (a data property holding a host closure; installed by
plain assignment, so its attributes come from assignment semantics).
`lazySlot subject memo e`: an accessor installed by the declaration
function, closing over `subject` and `isMemoized`; its descriptor says
`configurable: true` and omits `enumerable`, so `e` records the property's
(inherited or defaulted) enumerability. -/
inductive PropA where
  | dataProp : JsVal → Bool → Bool → Bool → PropA
  | declMethod : Bool → Bool → Bool → PropA
  | lazySlot : JsVal → Bool → Bool → PropA
deriving DecidableEq

def PropA.configurable : PropA → Bool
  | .dataProp _ _ _ c => c
  | .declMethod _ _ c => c
  | .lazySlot _ _ _ => true

def PropA.enumerable : PropA → Bool
  | .dataProp _ _ e _ => e
  | .declMethod _ e _ => e
  | .lazySlot _ _ e => e

/-- Engine state for variant A: the augmented context (`props`), the
closure array `cache` (the Declaration Registry; JS pushes/pops at the
array's end, which we model as cons/head: the head is the most recently
pushed name), and the chosen method name. -/
structure StateA where
  props : List (String × PropA)
  cache : List String
  method : String
deriving DecidableEq

/-- A context before attachment: a plain object of ordinary data
properties. -/
def baseProps (base : List (String × (JsVal × Bool × Bool × Bool))) :
    List (String × PropA) :=
  base.map (fun kp => (kp.1, PropA.dataProp kp.2.1 kp.2.2.1 kp.2.2.2.1 kp.2.2.2.2))

/-- `method = method || 'lazy'` (resp. `'set'`): an absent or empty-string
(falsy) argument selects the default. -/
def defaultName (d : String) : Option String → String
  | none => d
  | some s => if s = "" then d else s

/-- `lazy(context, method)` of `src/lazy.js`: fresh empty cache, default
method name `'lazy'`, then two sloppy-mode assignments.
`context[method] = function (name, value) ...` creates a fresh
writable/enumerable/configurable data property, overwrites the value of an
existing writable data property keeping its attributes, and silently does
nothing on a non-writable one.  The follow-up
`context[method].restore = function () ...` reads `context[method]` back:
when the first assignment failed on a non-writable property still holding
`null`/`undefined`, that property access throws `TypeError`; on any other
retained value it is a sloppy-mode no-op (primitive) or mutates the held
object invisibly to the engine's surface.  Returns the context and the
error, if any. -/
def attachA (base : List (String × (JsVal × Bool × Bool × Bool)))
    (method : Option String) : StateA × Option Err :=
  let m := defaultName "lazy" method
  let props0 := baseProps base
  match lookupProp base m with
  | none =>
      ({ props := setProp props0 m (.declMethod true true true)
         cache := []
         method := m }, none)
  | some (v, w, e, c) =>
      if w then
        ({ props := setProp props0 m (.declMethod w e c)
           cache := []
           method := m }, none)
      else
        match v with
        | .vnull => ({ props := props0, cache := [], method := m }, some .typeErr)
        | _ => ({ props := props0, cache := [], method := m }, none)

/-- The declaration function of `src/lazy.js`:
`subject = arguments.length === 2 ? value : null`, `isMemoized = false`,
`cache.push(name)` and then
`Object.defineProperty(context, name, {get, set, configurable: true})`.
The push happens unconditionally *before* the property definition.  The
definition succeeds on an absent or configurable property (a redefinition
keeps the old `enumerable` attribute, since the descriptor omits it; a
fresh property defaults to non-enumerable) and throws `TypeError` on a
non-configurable one. -/
def declareA (s : StateA) (name : String) (value : Option JsVal) :
    StateA × Option Err :=
  let subject := value.getD .vnull
  let cache' := name :: s.cache
  match lookupProp s.props name with
  | none =>
      ({ s with props := setProp s.props name (.lazySlot subject false false)
                cache := cache' }, none)
  | some p =>
      if p.configurable then
        ({ s with props := setProp s.props name (.lazySlot subject false p.enumerable)
                  cache := cache' }, none)
      else
        ({ s with cache := cache' }, some .typeErr)

/-- Reading `context[name]` under variant A.  Returns the new state, the
read result, and the identities of the callables invoked during the read.
The getter: if `isMemoized`, return `subject`; otherwise set
`isMemoized = true` *before* the invocation, then
`return subject = isFunction && !isMocked ? subject.call(this) : subject`.
If the invocation throws, the assignment to `subject` never happens but
`isMemoized` stays `true`. -/
def getA (s : StateA) (name : String) : StateA × ReadResult × List Nat :=
  match lookupProp s.props name with
  | none => (s, .undef, [])
  | some (.dataProp v _ _ _) => (s, .val v, [])
  | some (.declMethod _ _ _) => (s, .declFn, [])
  | some (.lazySlot subject memo e) =>
      if memo then (s, .val subject, [])
      else
        match subject with
        | .func fid false (.ret w) =>
            ({ s with props := setProp s.props name (.lazySlot w true e) },
             .val w, [fid])
        | .func fid false (.thrw ex) =>
            ({ s with props := setProp s.props name (.lazySlot subject true e) },
             .err (.thrown ex), [fid])
        | v =>
            ({ s with props := setProp s.props name (.lazySlot v true e) },
             .val v, [])

/-- Sloppy-mode assignment `context[name] = v` under variant A: a lazy
slot's setter runs (`subject = value; isMemoized = false`); a writable data
property (the declaration function included) is overwritten; a non-writable
one is silently left alone; an absent name becomes a fresh
writable/enumerable/configurable data property. -/
def setValA (s : StateA) (name : String) (v : JsVal) : StateA :=
  match lookupProp s.props name with
  | none => { s with props := setProp s.props name (.dataProp v true true true) }
  | some (.dataProp _ w e c) =>
      if w then { s with props := setProp s.props name (.dataProp v w e c) } else s
  | some (.declMethod w e c) =>
      if w then { s with props := setProp s.props name (.dataProp v w e c) } else s
  | some (.lazySlot _ _ e) =>
      { s with props := setProp s.props name (.lazySlot v false e) }

/-- Sloppy-mode `delete context[n]`: removes a configurable own property,
silently does nothing on a non-configurable or absent one. -/
def deleteOne {α : Type} (cfg : α → Bool) (props : List (String × α))
    (n : String) : List (String × α) :=
  match lookupProp props n with
  | none => props
  | some p => if cfg p then removeProp props n else props

/-- `while (cache.length) { delete context[cache.pop()]; }` over a props
map. -/
def deleteAll {α : Type} (cfg : α → Bool) :
    List String → List (String × α) → List (String × α)
  | [], props => props
  | n :: rest, props => deleteAll cfg rest (deleteOne cfg props n)

/-- `restore` of variant A: pop every cached name and delete it from the
context; the cache ends empty. -/
def restoreA (s : StateA) : StateA :=
  { s with props := deleteAll PropA.configurable s.cache s.props, cache := [] }

/-- Numeric value of a decimal digit character, if it is one. -/
def digitVal (c : Char) : Option Nat :=
  if c >= '0' ∧ c <= '9' then some (c.toNat - 48) else none

def parseNatAux : List Char → Nat → Option Nat
  | [], acc => some acc
  | c :: cs, acc =>
      match digitVal c with
      | some d => parseNatAux cs (acc * 10 + d)
      | none => none

/-- The numeric value of an *array index* key (ECMA-262): a canonical
decimal string (no sign, no leading zero except `"0"` itself) whose value
is below `2^32 - 1`; `none` for every other key. -/
def arrayIndex (s : String) : Option Nat :=
  match s.data with
  | [] => none
  | c :: cs =>
      if c = '0' ∧ cs ≠ [] then none
      else
        match parseNatAux (c :: cs) 0 with
        | some n => if n < 4294967295 then some n else none
        | none => none

def insertIdx (p : Nat × String) : List (Nat × String) → List (Nat × String)
  | [] => [p]
  | q :: qs => if p.1 < q.1 then p :: q :: qs else q :: insertIdx p qs

/-- Insertion sort by ascending numeric index (all indices are distinct,
since an array-index key determines its value). -/
def sortIdx : List (Nat × String) → List (Nat × String)
  | [] => []
  | p :: ps => insertIdx p (sortIdx ps)

/-- The `OrdinaryOwnPropertyKeys` order over string keys: array-index keys
first in ascending numeric order, then the remaining keys in insertion
(property creation) order. -/
def orderKeys (keys : List String) : List String :=
  (sortIdx (keys.filterMap (fun k => (arrayIndex k).map (fun n => (n, k))))).map
      Prod.snd
    ++ keys.filter (fun k => (arrayIndex k).isNone)

/-- The enumerable keys in raw insertion order (before the array-index
reordering). -/
def insertionEnumKeys {α : Type} (en : α → Bool) (props : List (String × α)) :
    List String :=
  (props.filter (fun kp => en kp.2)).map (fun kp => kp.1)

/-- The context's own enumerable keys as `Object.keys` lists them:
`OrdinaryOwnPropertyKeys` order restricted to enumerable properties. -/
def enumKeys {α : Type} (en : α → Bool) (props : List (String × α)) :
    List String :=
  orderKeys (insertionEnumKeys en props)

/-! ## Variant B: `src/unnamed/part_000` (self-rewriting) -/

/-- Own property of a context under variant B.  `declMethod w e c` is the
declaration function installed with `Object.defineProperty(context, method,
{value: ...})`: on a fresh property the omitted descriptor attributes
default to `false`; when redefining an existing property,
`ValidateAndApplyPropertyDescriptor` only changes `[[Value]]` and the
existing attributes are retained, so the attributes are recorded.
`lazySlot subject e` is an accessor installed by the declaration function
with `configurable: true, enumerable: true`; there is no memoization flag,
the getter instead writes the resolved value back through the property
(which runs the accessor's own setter, replacing `subject`). -/
inductive PropB where
  | dataProp : JsVal → Bool → Bool → Bool → PropB
  | declMethod : Bool → Bool → Bool → PropB
  | lazySlot : JsVal → Bool → PropB
deriving DecidableEq

def PropB.configurable : PropB → Bool
  | .dataProp _ _ _ c => c
  | .declMethod _ _ c => c
  | .lazySlot _ _ => true

def PropB.enumerable : PropB → Bool
  | .dataProp _ _ e _ => e
  | .declMethod _ e _ => e
  | .lazySlot _ e => e

/-- Engine state for variant B; fields as in `StateA`. -/
structure StateB where
  props : List (String × PropB)
  cache : List String
  method : String
deriving DecidableEq

def basePropsB (base : List (String × (JsVal × Bool × Bool × Bool))) :
    List (String × PropB) :=
  base.map (fun kp => (kp.1, PropB.dataProp kp.2.1 kp.2.2.1 kp.2.2.2.1 kp.2.2.2.2))

/-- `lazy(context, method)` of `src/unnamed/part_000`:
`method = method || 'set'`, `context = context || {}` (an absent context
becomes a fresh empty object), then
`Object.defineProperty(context, method, {value: function ...})` with
`ValidateAndApplyPropertyDescriptor` semantics for a descriptor holding
only `[[Value]]`: on an absent property a fresh
non-writable/non-enumerable/non-configurable data property is created; on a
configurable existing property, and likewise on a non-configurable but
writable one, only `[[Value]]` is replaced and the attributes are retained;
on a non-configurable non-writable property it throws `TypeError` (the
declaration function is a fresh closure, never `SameValue` with the
existing value).  The subsequent `context[method].restore = ...` assignment
targets the just-stored function and cannot fail. -/
def attachB (base : Option (List (String × (JsVal × Bool × Bool × Bool))))
    (method : Option String) : Except Err StateB :=
  let m := defaultName "set" method
  let b := base.getD []
  let props0 := basePropsB b
  match lookupProp b m with
  | none =>
      .ok { props := setProp props0 m (.declMethod false false false)
            cache := []
            method := m }
  | some (_, w, e, c) =>
      if c then
        .ok { props := setProp props0 m (.declMethod w e c)
              cache := []
              method := m }
      else if w then
        .ok { props := setProp props0 m (.declMethod w e c)
              cache := []
              method := m }
      else
        .error .typeErr

/-- The declaration function of `src/unnamed/part_000`: subject defaulting,
unconditional `cache.push(name)`, then
`Object.defineProperty(context, name, {get, set, configurable: true,
enumerable: true})` — here `enumerable` is given explicitly, so the slot is
enumerable even when redefining a previously non-enumerable property. -/
def declareB (s : StateB) (name : String) (value : Option JsVal) :
    StateB × Option Err :=
  let subject := value.getD .vnull
  let cache' := name :: s.cache
  match lookupProp s.props name with
  | none =>
      ({ s with props := setProp s.props name (.lazySlot subject true)
                cache := cache' }, none)
  | some p =>
      if p.configurable then
        ({ s with props := setProp s.props name (.lazySlot subject true)
                  cache := cache' }, none)
      else
        ({ s with cache := cache' }, some .typeErr)

/-- Reading `context[name]` under variant B.  The getter evaluates
`context[name] = isFunction && !isMocked ? subject.call(this) : subject`:
for a plain callable it invokes the subject, then the assignment runs the
accessor's own setter (storing the result as the new subject) and the
assignment expression's value is returned; for anything else the setter
rewrites the unchanged subject.  A throwing invocation propagates before
the assignment, leaving the slot untouched. -/
def getB (s : StateB) (name : String) : StateB × ReadResult × List Nat :=
  match lookupProp s.props name with
  | none => (s, .undef, [])
  | some (.dataProp v _ _ _) => (s, .val v, [])
  | some (.declMethod _ _ _) => (s, .declFn, [])
  | some (.lazySlot subject e) =>
      match subject with
      | .func fid false (.ret w) =>
          ({ s with props := setProp s.props name (.lazySlot w e) },
           .val w, [fid])
      | .func fid false (.thrw ex) =>
          (s, .err (.thrown ex), [fid])
      | v =>
          ({ s with props := setProp s.props name (.lazySlot v e) },
           .val v, [])

/-- Sloppy-mode assignment `context[name] = v` under variant B: the lazy
setter is just `subject = value`; the method property is overwritten only
when writable (on a fresh attach it is non-writable and the assignment
silently does nothing). -/
def setValB (s : StateB) (name : String) (v : JsVal) : StateB :=
  match lookupProp s.props name with
  | none => { s with props := setProp s.props name (.dataProp v true true true) }
  | some (.dataProp _ w e c) =>
      if w then { s with props := setProp s.props name (.dataProp v w e c) } else s
  | some (.declMethod w e c) =>
      if w then { s with props := setProp s.props name (.dataProp v w e c) } else s
  | some (.lazySlot _ e) =>
      { s with props := setProp s.props name (.lazySlot v e) }

/-- `restore` of variant B (textually the same loop as variant A). -/
def restoreB (s : StateB) : StateB :=
  { s with props := deleteAll PropB.configurable s.cache s.props, cache := [] }

/-! ## Operation sequences and observations

A client program is a sequence of declarations, property reads, direct
assignments and restores against the attached context.  Each step produces
an observation: what a read returned and which callables it invoked, or
whether a declaration threw. -/

inductive Op where
  | declare : String → Option JsVal → Op
  | get : String → Op
  | set : String → JsVal → Op
  | restore : Op
deriving DecidableEq

inductive Obs where
  | ok : Obs
  | declErr : Err → Obs
  | read : ReadResult → List Nat → Obs
deriving DecidableEq

def stepA (s : StateA) : Op → StateA × Obs
  | .declare n v =>
      let r := declareA s n v
      (r.1, match r.2 with | none => .ok | some e => .declErr e)
  | .get n =>
      let r := getA s n
      (r.1, .read r.2.1 r.2.2)
  | .set n v => (setValA s n v, .ok)
  | .restore => (restoreA s, .ok)

def stepB (s : StateB) : Op → StateB × Obs
  | .declare n v =>
      let r := declareB s n v
      (r.1, match r.2 with | none => .ok | some e => .declErr e)
  | .get n =>
      let r := getB s n
      (r.1, .read r.2.1 r.2.2)
  | .set n v => (setValB s n v, .ok)
  | .restore => (restoreB s, .ok)

def runA (s : StateA) : List Op → StateA × List Obs
  | [] => (s, [])
  | op :: ops =>
      let r := stepA s op
      let rest := runA r.1 ops
      (rest.1, r.2 :: rest.2)

def runB (s : StateB) : List Op → StateB × List Obs
  | [] => (s, [])
  | op :: ops =>
      let r := stepB s op
      let rest := runB r.1 ops
      (rest.1, r.2 :: rest.2)

/-- `k` consecutive reads of `context[name]`, collecting each read's result
and invocation list. -/
def getsA (s : StateA) (name : String) : Nat → List (ReadResult × List Nat)
  | 0 => []
  | k + 1 =>
      let r := getA s name
      (r.2.1, r.2.2) :: getsA r.1 name k

def getsB (s : StateB) (name : String) : Nat → List (ReadResult × List Nat)
  | 0 => []
  | k + 1 =>
      let r := getB s name
      (r.2.1, r.2.2) :: getsB r.1 name k

/-! ## Correspondence between the two variants

The spec asserts the two memoization bookkeeping styles are behaviourally
equivalent.  They are not in general (see the C2 counterexample); they are
equivalent for "tame" programs: ones that never declare or assign at the
method name, never store a throwing factory, and never store a factory
whose result is itself a plain callable. -/

/-- A value whose resolution behaviour cannot distinguish the variants: not
a throwing plain callable, and if a plain callable, its result is not
itself a plain callable. -/
def tame : JsVal → Bool
  | .func _ false (.ret w) => !w.isPlainFn
  | .func _ false (.thrw _) => false
  | _ => true

/-- Operations covered by the equivalence: everything except declaring or
assigning at the method name, with tame values only. -/
def opOk (m : String) : Op → Bool
  | .declare n v => (!(n == m)) && tame (v.getD .vnull)
  | .set n v => (!(n == m)) && tame v
  | .get _ => true
  | .restore => true

def opsOk (m : String) (ops : List Op) : Bool := ops.all (opOk m)

/-- Correspondence between a variant-A and a variant-B property at key `n`
(with method name `m`): equal data properties away from `m`, the two
declaration functions at `m`, or lazy slots with the same tame subject —
where a variant-A slot marked memoized must hold a non-callable-resolved
subject (the getter never leaves a plain callable behind a set flag for
tame programs). -/
def PropRel (m n : String) : PropA → PropB → Prop
  | .dataProp v w e c, .dataProp v' w' e' c' =>
      n ≠ m ∧ v = v' ∧ w = w' ∧ e = e' ∧ c = c'
  | .declMethod _ _ _, .declMethod _ _ _ => n = m
  | .lazySlot subj memo _, .lazySlot subj' _ =>
      n ≠ m ∧ subj = subj' ∧ tame subj = true ∧
        (memo = true → subj.isPlainFn = false)
  | _, _ => False

/-- Pointwise correspondence of the two contexts' property lists: same keys
in the same (insertion) order, related properties. -/
def PropsRel (m : String) (ps : List (String × PropA))
    (qs : List (String × PropB)) : Prop :=
  List.Forall₂ (fun a b => a.1 = b.1 ∧ PropRel m a.1 a.2 b.2) ps qs

/-- Full correspondence between engine states of the two variants. -/
structure StRel (sA : StateA) (sB : StateB) : Prop where
  method_eq : sA.method = sB.method
  cache_eq : sA.cache = sB.cache
  method_not_cached : sA.method ∉ sA.cache
  props_rel : PropsRel sA.method sA.props sB.props

/-- Decidable form of "the property at `n`, if any, is configurable":
deleting `n` is guaranteed to leave nothing behind. -/
def cfgOkAt {α : Type} (cfg : α → Bool) (ps : List (String × α))
    (n : String) : Bool :=
  match lookupProp ps n with
  | none => true
  | some p => cfg p

/-- A sequence of declarations `context[method](name, value)`, in order. -/
def declareListA (s : StateA) : List (String × Option JsVal) → StateA
  | [] => s
  | d :: ds => declareListA (declareA s d.1 d.2).1 ds

def declareListB (s : StateB) : List (String × Option JsVal) → StateB
  | [] => s
  | d :: ds => declareListB (declareB s d.1 d.2).1 ds

/-! ## Concrete fixtures used by witnesses and counterexamples -/

/-- A factory returning the literal `prim 7`. -/
def litFactory : JsVal := .func 0 false (.ret (.prim 7))

/-- A factory whose result is itself a plain (non-mocked) callable. -/
def chainFactory : JsVal := .func 0 false (.ret (.func 1 false (.ret (.prim 7))))

/-- A factory that throws exception `9` when invoked. -/
def throwingFactory : JsVal := .func 5 false (.thrw 9)

/-- A sinon-style mock: a callable exposing `getCall`. -/
def mockedSubject : JsVal := .func 3 true (.ret (.prim 1))

/-- An empty context attached under variant A with explicit method name
`"m"` (the attachment raises nothing on an empty context). -/
def sampleA : StateA := (attachA [] (some "m")).1

/-- An empty context attached under variant B with explicit method name
`"m"` (the result state of `attachB none (some "m")`, see
`attachB_sampleB`). -/
def sampleB : StateB :=
  { props := [("m", .declMethod false false false)], cache := [], method := "m" }

def declaredA (v : JsVal) : StateA := (declareA sampleA "n" (some v)).1

def declaredB (v : JsVal) : StateB := (declareB sampleB "n" (some v)).1

/-- A context owning a single non-configurable data property `"x"`,
attached under variant A (the method name `"lazy"` is free, so the
attachment raises nothing). -/
def frozenA : StateA := (attachA [("x", (.prim 1, false, false, false))] none).1

/-- The same context attached under variant B (the result state of
`attachB`, see `attachB_frozenB`). -/
def frozenB : StateB :=
  { props := [("x", .dataProp (.prim 1) false false false),
      ("set", .declMethod false false false)]
    cache := []
    method := "set" }

/-- A context with `"n"` declared twice (a duplicate registry entry) and a
second name `"p"` declared once, variant A. -/
def dupA : StateA :=
  (declareA (declareA (declaredA (.prim 0)) "p" (some (.prim 2))).1
    "n" (some (.prim 1))).1

/-- Same shape under variant B. -/
def dupB : StateB :=
  (declareB (declareB (declaredB (.prim 0)) "p" (some (.prim 2))).1
    "n" (some (.prim 1))).1

/-! ## Basic association-list lemmas -/

theorem lookup_setProp_self {α : Type} (ps : List (String × α)) (n : String)
    (p : α) : lookupProp (setProp ps n p) n = some p := by
  induction ps with
  | nil => simp [setProp, lookupProp]
  | cons kp ps ih =>
      obtain ⟨k, q⟩ := kp
      by_cases h : k = n <;> simp [setProp, lookupProp, h, ih]

theorem lookup_setProp_ne {α : Type} (ps : List (String × α)) (n k : String)
    (p : α) (hk : k ≠ n) : lookupProp (setProp ps n p) k = lookupProp ps k := by
  induction ps with
  | nil => simp [setProp, lookupProp, Ne.symm hk]
  | cons kq ps ih =>
      obtain ⟨k', q⟩ := kq
      by_cases h : k' = n
      · subst h
        simp [setProp, lookupProp, Ne.symm hk]
      · simp [setProp, lookupProp, h, ih]

theorem setProp_self {α : Type} (ps : List (String × α)) (n : String) (p : α)
    (h : lookupProp ps n = some p) : setProp ps n p = ps := by
  induction ps with
  | nil => simp [lookupProp] at h
  | cons kq ps ih =>
      obtain ⟨k, q⟩ := kq
      by_cases hk : k = n
      · subst hk
        simp [lookupProp] at h
        simp [setProp, h]
      · simp [lookupProp, hk] at h
        simp [setProp, hk, ih h]

theorem setProp_absent {α : Type} (ps : List (String × α)) (n : String) (p : α)
    (h : lookupProp ps n = none) : setProp ps n p = ps ++ [(n, p)] := by
  induction ps with
  | nil => simp [setProp]
  | cons kq ps ih =>
      obtain ⟨k, q⟩ := kq
      by_cases hk : k = n
      · simp [lookupProp, hk] at h
      · simp [lookupProp, hk] at h
        simp [setProp, hk, ih h]

theorem lookup_removeProp_self {α : Type} (ps : List (String × α))
    (n : String) : lookupProp (removeProp ps n) n = none := by
  induction ps with
  | nil => simp [removeProp, lookupProp]
  | cons kq ps ih =>
      obtain ⟨k, q⟩ := kq
      by_cases hk : k = n <;> simp [removeProp, lookupProp, hk, ih]

theorem lookup_removeProp_ne {α : Type} (ps : List (String × α))
    (n k : String) (hk : k ≠ n) :
    lookupProp (removeProp ps n) k = lookupProp ps k := by
  induction ps with
  | nil => simp [removeProp]
  | cons kq ps ih =>
      obtain ⟨k', q⟩ := kq
      by_cases h : k' = n
      · subst h
        simp [removeProp, lookupProp, Ne.symm hk, ih]
      · simp [removeProp, lookupProp, h, ih]

theorem deleteOne_absent {α : Type} (cfg : α → Bool) (ps : List (String × α))
    (n : String) (h : lookupProp ps n = none) : deleteOne cfg ps n = ps := by
  unfold deleteOne
  rw [h]

theorem deleteOne_config {α : Type} (cfg : α → Bool) (ps : List (String × α))
    (n : String) (p : α) (h : lookupProp ps n = some p) (hc : cfg p = true) :
    deleteOne cfg ps n = removeProp ps n := by
  unfold deleteOne
  rw [h]
  simp [hc]

theorem deleteOne_nonconfig {α : Type} (cfg : α → Bool)
    (ps : List (String × α)) (n : String) (p : α)
    (h : lookupProp ps n = some p) (hc : cfg p = false) :
    deleteOne cfg ps n = ps := by
  unfold deleteOne
  rw [h]
  simp [hc]

theorem lookup_deleteOne_ne {α : Type} (cfg : α → Bool)
    (ps : List (String × α)) (n k : String) (hk : k ≠ n) :
    lookupProp (deleteOne cfg ps n) k = lookupProp ps k := by
  match h : lookupProp ps n with
  | none => rw [deleteOne_absent cfg ps n h]
  | some p =>
      by_cases hc : cfg p
      · rw [deleteOne_config cfg ps n p h hc, lookup_removeProp_ne ps n k hk]
      · rw [deleteOne_nonconfig cfg ps n p h (Bool.eq_false_iff.mpr hc)]

theorem lookup_deleteOne_self {α : Type} (cfg : α → Bool)
    (ps : List (String × α)) (n : String)
    (h : ∀ p, lookupProp ps n = some p → cfg p = true) :
    lookupProp (deleteOne cfg ps n) n = none := by
  match hl : lookupProp ps n with
  | none => rw [deleteOne_absent cfg ps n hl]; exact hl
  | some p =>
      rw [deleteOne_config cfg ps n p hl (h p hl), lookup_removeProp_self]

theorem lookup_deleteOne_cases {α : Type} (cfg : α → Bool)
    (ps : List (String × α)) (n k : String) :
    lookupProp (deleteOne cfg ps n) k = lookupProp ps k ∨
      lookupProp (deleteOne cfg ps n) k = none := by
  by_cases hk : k = n
  · subst hk
    match hl : lookupProp ps k with
    | none => rw [deleteOne_absent cfg ps k hl]; exact .inl hl
    | some p =>
        by_cases hc : cfg p
        · rw [deleteOne_config cfg ps k p hl hc]
          exact .inr (lookup_removeProp_self ps k)
        · rw [deleteOne_nonconfig cfg ps k p hl (Bool.eq_false_iff.mpr hc)]
          exact .inl hl
  · exact .inl (lookup_deleteOne_ne cfg ps n k hk)

theorem lookup_deleteAll_not_mem {α : Type} (cfg : α → Bool)
    (cache : List String) (ps : List (String × α)) (k : String)
    (hk : k ∉ cache) :
    lookupProp (deleteAll cfg cache ps) k = lookupProp ps k := by
  induction cache generalizing ps with
  | nil => rfl
  | cons n rest ih =>
      have hk1 : k ≠ n := fun h => hk (h ▸ List.mem_cons_self n rest)
      have hk2 : k ∉ rest := fun h => hk (List.mem_cons_of_mem n h)
      rw [deleteAll, ih (deleteOne cfg ps n) hk2,
        lookup_deleteOne_ne cfg ps n k hk1]

theorem lookup_deleteAll_none {α : Type} (cfg : α → Bool)
    (cache : List String) (ps : List (String × α)) (k : String)
    (hk : lookupProp ps k = none) :
    lookupProp (deleteAll cfg cache ps) k = none := by
  induction cache generalizing ps with
  | nil => exact hk
  | cons n rest ih =>
      rw [deleteAll]
      rcases lookup_deleteOne_cases cfg ps n k with h | h
      · exact ih _ (h.trans hk)
      · exact ih _ h

theorem lookup_deleteAll_mem {α : Type} (cfg : α → Bool)
    (cache : List String) (ps : List (String × α)) (k : String)
    (hmem : k ∈ cache)
    (hcfg : ∀ n p, n ∈ cache → lookupProp ps n = some p → cfg p = true) :
    lookupProp (deleteAll cfg cache ps) k = none := by
  induction cache generalizing ps with
  | nil => cases hmem
  | cons n rest ih =>
      rw [deleteAll]
      have hcfg' : ∀ n' p, n' ∈ rest → lookupProp (deleteOne cfg ps n) n' = some p →
          cfg p = true := by
        intro n' p hn' hl
        rcases lookup_deleteOne_cases cfg ps n n' with h | h
        · exact hcfg n' p (List.mem_cons_of_mem n hn') (h ▸ hl)
        · rw [hl] at h; cases h
      rcases List.mem_cons.mp hmem with h | h
      · subst h
        by_cases hmem2 : k ∈ rest
        · exact ih _ hmem2 hcfg'
        · refine lookup_deleteAll_not_mem cfg rest _ k hmem2 |>.trans ?_
          exact lookup_deleteOne_self cfg ps k
            (fun p hl => hcfg k p (List.mem_cons_self k rest) hl)
      · exact ih _ h hcfg'

/-! ## Memoization lemmas -/

theorem getA_memoized (s : StateA) (n : String) (v : JsVal) (e : Bool)
    (h : lookupProp s.props n = some (.lazySlot v true e)) :
    getA s n = (s, .val v, []) := by
  simp [getA, h]

theorem getsA_memoized (s : StateA) (n : String) (v : JsVal) (e : Bool)
    (h : lookupProp s.props n = some (.lazySlot v true e)) (k : Nat) :
    getsA s n k = List.replicate k (.val v, []) := by
  induction k with
  | zero => rfl
  | succ k ih =>
      rw [getsA, getA_memoized s n v e h]
      simp [ih, List.replicate_succ]

theorem getB_inert (s : StateB) (n : String) (v : JsVal) (e : Bool)
    (h : lookupProp s.props n = some (.lazySlot v e))
    (hv : v.isPlainFn = false) :
    getB s n = (s, .val v, []) := by
  match v, hv with
  | .vnull, _ =>
      simp [getB, h, setProp_self s.props n _ h]
  | .prim k, _ =>
      simp [getB, h, setProp_self s.props n _ h]
  | .func fid true b, _ =>
      simp [getB, h, setProp_self s.props n _ h]

theorem getsB_inert (s : StateB) (n : String) (v : JsVal) (e : Bool)
    (h : lookupProp s.props n = some (.lazySlot v e))
    (hv : v.isPlainFn = false) (k : Nat) :
    getsB s n k = List.replicate k (.val v, []) := by
  induction k with
  | zero => rfl
  | succ k ih =>
      rw [getsB, getB_inert s n v e h hv]
      simp [ih, List.replicate_succ]

theorem lookup_deleteAll_nonconfigurable {α : Type} (cfg : α → Bool)
    (cache : List String) (ps : List (String × α)) (k : String) (p : α)
    (hl : lookupProp ps k = some p) (hc : cfg p = false) :
    lookupProp (deleteAll cfg cache ps) k = some p := by
  induction cache generalizing ps with
  | nil => exact hl
  | cons n rest ih =>
      rw [deleteAll]
      refine ih _ ?_
      by_cases hk : k = n
      · subst hk
        rw [deleteOne_nonconfig cfg ps k p hl hc]
        exact hl
      · rw [lookup_deleteOne_ne cfg ps n k hk]
        exact hl

/-! ## Correspondence lemmas -/

theorem tame_of_not_plainFn (w : JsVal) (h : w.isPlainFn = false) :
    tame w = true := by
  match w, h with
  | .vnull, _ => rfl
  | .prim _, _ => rfl
  | .func _ true _, _ => rfl

theorem PropsRel_lookup {m : String} {ps : List (String × PropA)}
    {qs : List (String × PropB)} (h : PropsRel m ps qs) (n : String) :
    (lookupProp ps n = none ∧ lookupProp qs n = none) ∨
    ∃ pA pB, lookupProp ps n = some pA ∧ lookupProp qs n = some pB ∧
      PropRel m n pA pB := by
  induction h with
  | nil => exact .inl ⟨rfl, rfl⟩
  | cons hab htail ih =>
      rename_i a b ps' qs'
      obtain ⟨hname, hrel⟩ := hab
      by_cases hn : a.1 = n
      · refine .inr ⟨a.2, b.2, ?_, ?_, hn ▸ hrel⟩
        · obtain ⟨k, p⟩ := a
          simp_all [lookupProp]
        · obtain ⟨k', q⟩ := b
          obtain ⟨k, p⟩ := a
          simp_all [lookupProp]
      · obtain ⟨k, p⟩ := a
        obtain ⟨k', q⟩ := b
        obtain rfl : k = k' := hname
        simp only [lookupProp, if_neg (by simpa using hn),
          if_neg (by simpa using hn)]
        exact ih

theorem PropsRel_setProp {m : String} {ps : List (String × PropA)}
    {qs : List (String × PropB)} (h : PropsRel m ps qs) (n : String)
    {pA : PropA} {pB : PropB} (hp : PropRel m n pA pB) :
    PropsRel m (setProp ps n pA) (setProp qs n pB) := by
  induction h with
  | nil => exact List.Forall₂.cons ⟨rfl, hp⟩ List.Forall₂.nil
  | cons hab htail ih =>
      rename_i a b ps' qs'
      obtain ⟨hname, hrel⟩ := hab
      obtain ⟨k, p⟩ := a
      obtain ⟨k', q⟩ := b
      obtain rfl : k = k' := hname
      by_cases hn : k = n
      · subst hn
        simp only [setProp, if_pos rfl]
        exact List.Forall₂.cons ⟨rfl, hp⟩ htail
      · simp only [setProp, if_neg hn]
        exact List.Forall₂.cons ⟨rfl, hrel⟩ ih

theorem PropsRel_removeProp {m : String} {ps : List (String × PropA)}
    {qs : List (String × PropB)} (h : PropsRel m ps qs) (n : String) :
    PropsRel m (removeProp ps n) (removeProp qs n) := by
  induction h with
  | nil => exact List.Forall₂.nil
  | cons hab htail ih =>
      rename_i a b ps' qs'
      obtain ⟨hname, hrel⟩ := hab
      obtain ⟨k, p⟩ := a
      obtain ⟨k', q⟩ := b
      obtain rfl : k = k' := hname
      by_cases hn : k = n
      · subst hn
        simp only [removeProp, if_pos rfl]
        exact ih
      · simp only [removeProp, if_neg hn]
        exact List.Forall₂.cons ⟨rfl, hrel⟩ ih

theorem PropsRel_deleteOne {m : String} {ps : List (String × PropA)}
    {qs : List (String × PropB)} (h : PropsRel m ps qs) (n : String)
    (hn : n ≠ m) :
    PropsRel m (deleteOne PropA.configurable ps n)
      (deleteOne PropB.configurable qs n) := by
  rcases PropsRel_lookup h n with ⟨ha, hb⟩ | ⟨pA, pB, ha, hb, hr⟩
  · rw [deleteOne_absent _ _ _ ha, deleteOne_absent _ _ _ hb]
    exact h
  · match pA, pB, hr with
    | .dataProp v w e c, .dataProp v' w' e' c', ⟨_, _, _, _, hc⟩ =>
        cases hcc : c with
        | true =>
            rw [deleteOne_config _ _ _ _ ha (by simp [PropA.configurable, hcc]),
              deleteOne_config _ _ _ _ hb
                (by simp [PropB.configurable, ← hc, hcc])]
            exact PropsRel_removeProp h n
        | false =>
            rw [deleteOne_nonconfig _ _ _ _ ha
                (by simp [PropA.configurable, hcc]),
              deleteOne_nonconfig _ _ _ _ hb
                (by simp [PropB.configurable, ← hc, hcc])]
            exact h
    | .declMethod _ _ _, .declMethod _ _ _, hr => exact absurd hr hn
    | .lazySlot subj memo e, .lazySlot subj' e', _ =>
        rw [deleteOne_config _ _ _ _ ha rfl, deleteOne_config _ _ _ _ hb rfl]
        exact PropsRel_removeProp h n

theorem PropsRel_deleteAll {m : String} {cache : List String}
    {ps : List (String × PropA)} {qs : List (String × PropB)}
    (h : PropsRel m ps qs) (hm : m ∉ cache) :
    PropsRel m (deleteAll PropA.configurable cache ps)
      (deleteAll PropB.configurable cache qs) := by
  induction cache generalizing ps qs with
  | nil => exact h
  | cons n rest ih =>
      have hn : n ≠ m := fun he => hm (he ▸ List.mem_cons_self n rest)
      exact ih (PropsRel_deleteOne h n hn)
        (fun he => hm (List.mem_cons_of_mem n he))

theorem declareA_fresh (s : StateA) (n : String) (v : Option JsVal)
    (h : lookupProp s.props n = none) :
    declareA s n v =
      ({ s with props := setProp s.props n (.lazySlot (v.getD .vnull) false false)
                cache := n :: s.cache }, none) := by
  simp [declareA, h]

theorem declareB_fresh (s : StateB) (n : String) (v : Option JsVal)
    (h : lookupProp s.props n = none) :
    declareB s n v =
      ({ s with props := setProp s.props n (.lazySlot (v.getD .vnull) true)
                cache := n :: s.cache }, none) := by
  simp [declareB, h]

theorem StRel_restore {sA : StateA} {sB : StateB} (h : StRel sA sB) :
    StRel (restoreA sA) (restoreB sB) ∧ (restoreA sA).method = sA.method := by
  refine ⟨⟨h.method_eq, rfl, List.not_mem_nil _, ?_⟩, rfl⟩
  show PropsRel sA.method
    (deleteAll PropA.configurable sA.cache sA.props)
    (deleteAll PropB.configurable sB.cache sB.props)
  rw [← h.cache_eq]
  exact PropsRel_deleteAll h.props_rel h.method_not_cached

theorem StRel_setVal {sA : StateA} {sB : StateB} (h : StRel sA sB)
    (n : String) (v : JsVal) (hn : n ≠ sA.method) (hv : tame v = true) :
    StRel (setValA sA n v) (setValB sB n v) ∧
      (setValA sA n v).method = sA.method := by
  rcases PropsRel_lookup h.props_rel n with ⟨ha, hb⟩ | ⟨pA, pB, ha, hb, hr⟩
  · have hdA : setValA sA n v =
        { sA with props := setProp sA.props n (.dataProp v true true true) } := by
      simp [setValA, ha]
    have hdB : setValB sB n v =
        { sB with props := setProp sB.props n (.dataProp v true true true) } := by
      simp [setValB, hb]
    rw [hdA, hdB]
    exact ⟨⟨h.method_eq, h.cache_eq, h.method_not_cached,
      PropsRel_setProp h.props_rel n ⟨hn, rfl, rfl, rfl, rfl⟩⟩, rfl⟩
  · match pA, pB, hr with
    | .dataProp v1 w1 e1 c1, .dataProp v2 w2 e2 c2, ⟨_, hv12, hw12, he12, hc12⟩ =>
        subst hv12; subst hw12; subst he12; subst hc12
        cases w1 with
        | true =>
            have hdA : setValA sA n v =
                { sA with props := setProp sA.props n (.dataProp v true e1 c1) } := by
              simp [setValA, ha]
            have hdB : setValB sB n v =
                { sB with props := setProp sB.props n (.dataProp v true e1 c1) } := by
              simp [setValB, hb]
            rw [hdA, hdB]
            exact ⟨⟨h.method_eq, h.cache_eq, h.method_not_cached,
              PropsRel_setProp h.props_rel n ⟨hn, rfl, rfl, rfl, rfl⟩⟩, rfl⟩
        | false =>
            have hdA : setValA sA n v = sA := by simp [setValA, ha]
            have hdB : setValB sB n v = sB := by simp [setValB, hb]
            rw [hdA, hdB]
            exact ⟨h, rfl⟩
    | .declMethod w1 e1 c1, .declMethod _ _ _, hr => exact absurd hr hn
    | .lazySlot subj memo e, .lazySlot subj' e', ⟨_, _, _, _⟩ =>
        have hdA : setValA sA n v =
            { sA with props := setProp sA.props n (.lazySlot v false e) } := by
          simp [setValA, ha]
        have hdB : setValB sB n v =
            { sB with props := setProp sB.props n (.lazySlot v e') } := by
          simp [setValB, hb]
        rw [hdA, hdB]
        exact ⟨⟨h.method_eq, h.cache_eq, h.method_not_cached,
          PropsRel_setProp h.props_rel n
            ⟨hn, rfl, hv, fun hh => by cases hh⟩⟩, rfl⟩

theorem StRel_declare {sA : StateA} {sB : StateB} (h : StRel sA sB)
    (n : String) (v : Option JsVal) (hn : n ≠ sA.method)
    (hv : tame (v.getD .vnull) = true) :
    (declareA sA n v).2 = (declareB sB n v).2 ∧
      StRel (declareA sA n v).1 (declareB sB n v).1 ∧
      (declareA sA n v).1.method = sA.method := by
  have hcache : sA.method ∉ n :: sA.cache := by
    intro hmem
    rcases List.mem_cons.mp hmem with he | he
    · exact hn he.symm
    · exact h.method_not_cached he
  rcases PropsRel_lookup h.props_rel n with ⟨ha, hb⟩ | ⟨pA, pB, ha, hb, hr⟩
  · rw [declareA_fresh sA n v ha, declareB_fresh sB n v hb]
    refine ⟨rfl, ⟨h.method_eq, ?_, hcache, ?_⟩, rfl⟩
    · show n :: sA.cache = n :: sB.cache
      rw [h.cache_eq]
    · exact PropsRel_setProp h.props_rel n
        ⟨hn, rfl, hv, fun hh => by cases hh⟩
  · match pA, pB, hr with
    | .dataProp v1 w1 e1 c1, .dataProp v2 w2 e2 c2, ⟨_, hv12, hw12, he12, hc12⟩ =>
        subst hv12; subst hw12; subst he12; subst hc12
        cases c1 with
        | true =>
            have hdA : declareA sA n v =
                ({ sA with
                    props := setProp sA.props n
                      (.lazySlot (v.getD .vnull) false e1)
                    cache := n :: sA.cache }, none) := by
              simp [declareA, ha, PropA.configurable, PropA.enumerable]
            have hdB : declareB sB n v =
                ({ sB with
                    props := setProp sB.props n (.lazySlot (v.getD .vnull) true)
                    cache := n :: sB.cache }, none) := by
              simp [declareB, hb, PropB.configurable]
            rw [hdA, hdB]
            refine ⟨rfl, ⟨h.method_eq, ?_, hcache, ?_⟩, rfl⟩
            · show n :: sA.cache = n :: sB.cache
              rw [h.cache_eq]
            · exact PropsRel_setProp h.props_rel n
                ⟨hn, rfl, hv, fun hh => by cases hh⟩
        | false =>
            have hdA : declareA sA n v =
                ({ sA with cache := n :: sA.cache }, some .typeErr) := by
              simp [declareA, ha, PropA.configurable]
            have hdB : declareB sB n v =
                ({ sB with cache := n :: sB.cache }, some .typeErr) := by
              simp [declareB, hb, PropB.configurable]
            rw [hdA, hdB]
            refine ⟨rfl, ⟨h.method_eq, ?_, hcache, h.props_rel⟩, rfl⟩
            show n :: sA.cache = n :: sB.cache
            rw [h.cache_eq]
    | .declMethod w1 e1 c1, .declMethod _ _ _, hr => exact absurd hr hn
    | .lazySlot subj memo e, .lazySlot subj' e', _ =>
        have hdA : declareA sA n v =
            ({ sA with
                props := setProp sA.props n (.lazySlot (v.getD .vnull) false e)
                cache := n :: sA.cache }, none) := by
          simp [declareA, ha, PropA.configurable, PropA.enumerable]
        have hdB : declareB sB n v =
            ({ sB with
                props := setProp sB.props n (.lazySlot (v.getD .vnull) true)
                cache := n :: sB.cache }, none) := by
          simp [declareB, hb, PropB.configurable]
        rw [hdA, hdB]
        refine ⟨rfl, ⟨h.method_eq, ?_, hcache, ?_⟩, rfl⟩
        · show n :: sA.cache = n :: sB.cache
          rw [h.cache_eq]
        · exact PropsRel_setProp h.props_rel n
            ⟨hn, rfl, hv, fun hh => by cases hh⟩

theorem StRel_get {sA : StateA} {sB : StateB} (h : StRel sA sB) (n : String) :
    (getA sA n).2 = (getB sB n).2 ∧ StRel (getA sA n).1 (getB sB n).1 ∧
      (getA sA n).1.method = sA.method := by
  rcases PropsRel_lookup h.props_rel n with ⟨ha, hb⟩ | ⟨pA, pB, ha, hb, hr⟩
  · have hdA : getA sA n = (sA, .undef, []) := by simp [getA, ha]
    have hdB : getB sB n = (sB, .undef, []) := by simp [getB, hb]
    rw [hdA, hdB]
    exact ⟨rfl, h, rfl⟩
  · match pA, pB, hr with
    | .dataProp v1 w1 e1 c1, .dataProp v2 w2 e2 c2, ⟨_, hv12, _, _, _⟩ =>
        subst hv12
        have hdA : getA sA n = (sA, .val v1, []) := by simp [getA, ha]
        have hdB : getB sB n = (sB, .val v1, []) := by simp [getB, hb]
        rw [hdA, hdB]
        exact ⟨rfl, h, rfl⟩
    | .declMethod w1 e1 c1, .declMethod _ _ _, _ =>
        have hdA : getA sA n = (sA, .declFn, []) := by simp [getA, ha]
        have hdB : getB sB n = (sB, .declFn, []) := by simp [getB, hb]
        rw [hdA, hdB]
        exact ⟨rfl, h, rfl⟩
    | .lazySlot subj memo e, .lazySlot subj' e', ⟨hnm, hsubj, htame, hmemo⟩ =>
        subst hsubj
        cases memo with
        | true =>
            have hplain : subj.isPlainFn = false := hmemo rfl
            rw [getA_memoized sA n subj e ha, getB_inert sB n subj e' hb hplain]
            exact ⟨rfl, h, rfl⟩
        | false =>
            match subj, htame with
            | .func fid false (.ret w), htame =>
                have hw : w.isPlainFn = false := by
                  simpa [tame] using htame
                have hdA : getA sA n =
                    ({ sA with props := setProp sA.props n (.lazySlot w true e) },
                     .val w, [fid]) := by
                  simp [getA, ha]
                have hdB : getB sB n =
                    ({ sB with props := setProp sB.props n (.lazySlot w e') },
                     .val w, [fid]) := by
                  simp [getB, hb]
                rw [hdA, hdB]
                exact ⟨rfl, ⟨h.method_eq, h.cache_eq, h.method_not_cached,
                  PropsRel_setProp h.props_rel n
                    ⟨hnm, rfl, tame_of_not_plainFn w hw, fun _ => hw⟩⟩, rfl⟩
            | .func fid false (.thrw ex), htame => simp [tame] at htame
            | .func fid true b, _ =>
                have hdA : getA sA n =
                    ({ sA with props :=
                        setProp sA.props n (.lazySlot (.func fid true b) true e) },
                     .val (.func fid true b), []) := by
                  simp [getA, ha]
                have hdB : getB sB n =
                    ({ sB with props :=
                        setProp sB.props n (.lazySlot (.func fid true b) e') },
                     .val (.func fid true b), []) := by
                  simp [getB, hb]
                rw [hdA, hdB]
                exact ⟨rfl, ⟨h.method_eq, h.cache_eq, h.method_not_cached,
                  PropsRel_setProp h.props_rel n
                    ⟨hnm, rfl, rfl, fun _ => rfl⟩⟩, rfl⟩
            | .vnull, _ =>
                have hdA : getA sA n =
                    ({ sA with props := setProp sA.props n (.lazySlot .vnull true e) },
                     .val .vnull, []) := by
                  simp [getA, ha]
                have hdB : getB sB n =
                    ({ sB with props := setProp sB.props n (.lazySlot .vnull e') },
                     .val .vnull, []) := by
                  simp [getB, hb]
                rw [hdA, hdB]
                exact ⟨rfl, ⟨h.method_eq, h.cache_eq, h.method_not_cached,
                  PropsRel_setProp h.props_rel n
                    ⟨hnm, rfl, rfl, fun _ => rfl⟩⟩, rfl⟩
            | .prim k, _ =>
                have hdA : getA sA n =
                    ({ sA with props :=
                        setProp sA.props n (.lazySlot (.prim k) true e) },
                     .val (.prim k), []) := by
                  simp [getA, ha]
                have hdB : getB sB n =
                    ({ sB with props := setProp sB.props n (.lazySlot (.prim k) e') },
                     .val (.prim k), []) := by
                  simp [getB, hb]
                rw [hdA, hdB]
                exact ⟨rfl, ⟨h.method_eq, h.cache_eq, h.method_not_cached,
                  PropsRel_setProp h.props_rel n
                    ⟨hnm, rfl, rfl, fun _ => rfl⟩⟩, rfl⟩

theorem StRel_step {sA : StateA} {sB : StateB} (h : StRel sA sB) (op : Op)
    (hop : opOk sA.method op = true) :
    (stepA sA op).2 = (stepB sB op).2 ∧ StRel (stepA sA op).1 (stepB sB op).1 ∧
      (stepA sA op).1.method = sA.method := by
  cases op with
  | declare n v =>
      simp only [opOk, Bool.and_eq_true, Bool.not_eq_true',
        beq_eq_false_iff_ne] at hop
      obtain ⟨hd, hrel, hm⟩ := StRel_declare h n v hop.1 hop.2
      simp only [stepA, stepB]
      exact ⟨by rw [hd], hrel, hm⟩
  | get n =>
      obtain ⟨hd, hrel, hm⟩ := StRel_get h n
      simp only [stepA, stepB]
      exact ⟨by rw [hd], hrel, hm⟩
  | set n v =>
      simp only [opOk, Bool.and_eq_true, Bool.not_eq_true',
        beq_eq_false_iff_ne] at hop
      obtain ⟨hrel, hm⟩ := StRel_setVal h n v hop.1 hop.2
      exact ⟨rfl, hrel, hm⟩
  | restore =>
      obtain ⟨hrel, hm⟩ := StRel_restore h
      exact ⟨rfl, hrel, hm⟩

theorem StRel_run {sA : StateA} {sB : StateB} (h : StRel sA sB) (ops : List Op)
    (hops : opsOk sA.method ops = true) :
    (runA sA ops).2 = (runB sB ops).2 ∧
      StRel (runA sA ops).1 (runB sB ops).1 := by
  induction ops generalizing sA sB with
  | nil => exact ⟨rfl, h⟩
  | cons op ops ih =>
      simp only [opsOk, List.all_cons, Bool.and_eq_true] at hops
      obtain ⟨hd, hrel, hm⟩ := StRel_step h op hops.1
      have hops' : opsOk (stepA sA op).1.method ops = true := by
        rw [hm]
        exact hops.2
      obtain ⟨hobs, hfin⟩ := ih hrel hops'
      simp only [runA, runB]
      rw [hd, hobs]
      exact ⟨rfl, hfin⟩

theorem attachB_sampleB : attachB none (some "m") = .ok sampleB := by rfl

theorem cfgOkAt_some {α : Type} (cfg : α → Bool) (ps : List (String × α))
    (n : String) (p : α) (h : cfgOkAt cfg ps n = true)
    (hl : lookupProp ps n = some p) : cfg p = true := by
  rw [cfgOkAt, hl] at h
  exact h

/-! ## Claim C1 -/

/-- Claim C1, counterexample.  The claim quantifies over every factory and
both getter variants, asserting that after `declare(n, f)` every read
returns the value of the first invocation, with no further invocation of
`f` or of the returned value.  In the self-rewriting variant
(`src/unnamed/part_000`), declaring a factory whose result is itself a
plain callable refutes this: the first read returns the inner callable
(invoking `fid 0`), and the second read invokes that returned callable
(`fid 1`) and returns its result instead of the first read's value. -/
theorem selfRewriting_reinvokes_returned_callable :
    getsB (declaredB chainFactory) "n" 2 =
      [(.val (.func 1 false (.ret (.prim 7))), [0]), (.val (.prim 7), [1])] ∧
    ¬ (getsB (declaredB chainFactory) "n" 2).map Prod.fst =
        [.val (.func 1 false (.ret (.prim 7))),
         .val (.func 1 false (.ret (.prim 7)))] ∧
    ¬ (getsB (declaredB chainFactory) "n" 2).map Prod.snd = [[0], []] := by
  decide

/-- Claim C1, amended.  After `declare(n, f)` for a plain factory `f` that
returns `w`: in the flag-based variant (`src/lazy.js`) the first of `k+1`
reads invokes `f` exactly once and every read returns `w`, with no further
invocation of anything — unconditionally; in the self-rewriting variant the
same holds provided the returned value `w` is not itself a plain callable. -/
theorem factory_invoked_once
    (sA : StateA) (sB : StateB) (n : String) (fid : Nat) (w : JsVal)
    (e : Bool) (e' : Bool) (k : Nat)
    (hA : lookupProp sA.props n =
      some (.lazySlot (.func fid false (.ret w)) false e))
    (hB : lookupProp sB.props n = some (.lazySlot (.func fid false (.ret w)) e')) :
    getsA sA n (k + 1) = (.val w, [fid]) :: List.replicate k (.val w, []) ∧
    (w.isPlainFn = false →
      getsB sB n (k + 1) = (.val w, [fid]) :: List.replicate k (.val w, [])) := by
  constructor
  · have h1 : getA sA n =
        ({ sA with props := setProp sA.props n (.lazySlot w true e) },
         .val w, [fid]) := by
      simp [getA, hA]
    rw [getsA, h1, getsA_memoized _ n w e (lookup_setProp_self sA.props n _) k]
  · intro hw
    have h1 : getB sB n =
        ({ sB with props := setProp sB.props n (.lazySlot w e') },
         .val w, [fid]) := by
      simp [getB, hB]
    rw [getsB, h1,
      getsB_inert _ n w e' (lookup_setProp_self sB.props n _) hw k]

/-- Claim C1, witness: `factory_invoked_once` applied to the concrete
factory `litFactory` declared as `"n"` on a freshly attached context, read
three times. -/
theorem factory_invoked_once_witness :
    lookupProp (declaredA litFactory).props "n" =
      some (.lazySlot (.func 0 false (.ret (.prim 7))) false false) ∧
    lookupProp (declaredB litFactory).props "n" =
      some (.lazySlot (.func 0 false (.ret (.prim 7))) true) ∧
    (getsA (declaredA litFactory) "n" 3 =
        (.val (.prim 7), [0]) :: List.replicate 2 (.val (.prim 7), []) ∧
      ((JsVal.prim 7).isPlainFn = false →
        getsB (declaredB litFactory) "n" 3 =
          (.val (.prim 7), [0]) :: List.replicate 2 (.val (.prim 7), []))) :=
  ⟨by decide, by decide,
    factory_invoked_once (declaredA litFactory) (declaredB litFactory) "n" 0
      (.prim 7) false true 2 (by decide) (by decide)⟩

/-! ## Claim C3 -/

/-- Claim C3, counterexample.  The claim asserts that after a factory
throws inside the getter, the slot remains unmemoized and the immediately
following read re-invokes the factory.  In the flag-based variant
(`src/lazy.js`) the getter sets `isMemoized = true` *before* invoking the
subject, so after the first (throwing) read the slot is memoized: the
second read invokes nothing and returns the cached, never-resolved factory
itself. -/
theorem flag_variant_caches_throwing_factory :
    getsA (declaredA throwingFactory) "n" 2 =
      [(.err (.thrown 9), [5]), (.val (.func 5 false (.thrw 9)), [])] ∧
    ¬ (getsA (declaredA throwingFactory) "n" 2).map Prod.snd = [[5], [5]] := by
  decide

/-- Claim C3, amended.  A declared factory that throws: in both variants the
exception propagates unmodified to the reader.  In the self-rewriting
variant the slot is left untouched, so every subsequent read re-invokes the
factory and throws again.  In the flag-based variant the slot becomes
memoized with the unresolved factory as its subject: the next read invokes
nothing and returns the factory itself. -/
theorem thrown_factory_behavior
    (sA : StateA) (sB : StateB) (n : String) (fid ex : Nat)
    (e : Bool) (e' : Bool) (k : Nat)
    (hA : lookupProp sA.props n =
      some (.lazySlot (.func fid false (.thrw ex)) false e))
    (hB : lookupProp sB.props n =
      some (.lazySlot (.func fid false (.thrw ex)) e')) :
    getsA sA n 2 = [(.err (.thrown ex), [fid]),
      (.val (.func fid false (.thrw ex)), [])] ∧
    getB sB n = (sB, .err (.thrown ex), [fid]) ∧
    getsB sB n k = List.replicate k (.err (.thrown ex), [fid]) := by
  have hBfix : getB sB n = (sB, .err (.thrown ex), [fid]) := by
    simp [getB, hB]
  refine ⟨?_, hBfix, ?_⟩
  · have h1 : getA sA n =
        ({ sA with props :=
            setProp sA.props n (.lazySlot (.func fid false (.thrw ex)) true e) },
         .err (.thrown ex), [fid]) := by
      simp [getA, hA]
    rw [getsA, h1, getsA,
      getA_memoized _ n _ e (lookup_setProp_self sA.props n _)]
    rfl
  · induction k with
    | zero => rfl
    | succ k ih =>
        rw [getsB, hBfix]
        simp [ih, List.replicate_succ]

/-- Claim C3, witness: `thrown_factory_behavior` applied to
`throwingFactory` declared as `"n"` on freshly attached contexts of both
variants. -/
theorem thrown_factory_behavior_witness :
    lookupProp (declaredA throwingFactory).props "n" =
      some (.lazySlot (.func 5 false (.thrw 9)) false false) ∧
    lookupProp (declaredB throwingFactory).props "n" =
      some (.lazySlot (.func 5 false (.thrw 9)) true) ∧
    (getsA (declaredA throwingFactory) "n" 2 = [(.err (.thrown 9), [5]),
        (.val (.func 5 false (.thrw 9)), [])] ∧
      getB (declaredB throwingFactory) "n" =
        ((declaredB throwingFactory), .err (.thrown 9), [5]) ∧
      getsB (declaredB throwingFactory) "n" 2 =
        List.replicate 2 (.err (.thrown 9), [5])) :=
  ⟨by decide, by decide,
    thrown_factory_behavior (declaredA throwingFactory)
      (declaredB throwingFactory) "n" 5 9 false true 2 (by decide) (by decide)⟩

/-! ## Claim C8 -/

/-- Claim C8, confirmed.  A callable subject exposing the
call-introspection capability (`getCall`, the mock/spy heuristic) is
returned as-is from the getter on every read, and is never invoked, in both
variants. -/
theorem mocked_subject_returned_uninvoked
    (sA : StateA) (sB : StateB) (n : String) (fid : Nat) (b : FnBody)
    (memo e e' : Bool) (k : Nat)
    (hA : lookupProp sA.props n = some (.lazySlot (.func fid true b) memo e))
    (hB : lookupProp sB.props n = some (.lazySlot (.func fid true b) e')) :
    getsA sA n k = List.replicate k (.val (.func fid true b), []) ∧
    getsB sB n k = List.replicate k (.val (.func fid true b), []) := by
  constructor
  · cases memo with
    | true => exact getsA_memoized sA n _ e hA k
    | false =>
        cases k with
        | zero => rfl
        | succ k =>
            have h1 : getA sA n =
                ({ sA with props :=
                    setProp sA.props n (.lazySlot (.func fid true b) true e) },
                 .val (.func fid true b), []) := by
              simp [getA, hA]
            rw [getsA, h1,
              getsA_memoized _ n _ e (lookup_setProp_self sA.props n _) k,
              List.replicate_succ]
  · exact getsB_inert sB n _ e' hB rfl k

/-! ## Claim C2 -/

/-- Claim C2, counterexample.  The claim asserts the two variants are
observationally equivalent for every declare/get/set/restore sequence.  On
contexts freshly attached with the same method name `"m"`
(`sampleA`/`sampleB`, the latter being the result of
`attachB none (some "m")`, see `attachB_sampleB`), declaring a factory
whose result is itself a plain callable and reading twice yields different
read-result sequences: the flag-based variant returns the memoized inner
callable on the second read without invoking anything, while the
self-rewriting variant invokes the inner callable (`fid 1`) and returns its
result. -/
theorem variants_observably_differ :
    (runA sampleA [.declare "n" (some chainFactory), .get "n", .get "n"]).2 =
      [.ok, .read (.val (.func 1 false (.ret (.prim 7)))) [0],
        .read (.val (.func 1 false (.ret (.prim 7)))) []] ∧
    (runB sampleB [.declare "n" (some chainFactory), .get "n", .get "n"]).2 =
      [.ok, .read (.val (.func 1 false (.ret (.prim 7)))) [0],
        .read (.val (.prim 7)) [1]] ∧
    ¬ (runA sampleA [.declare "n" (some chainFactory), .get "n", .get "n"]).2 =
        (runB sampleB [.declare "n" (some chainFactory), .get "n", .get "n"]).2 := by
  decide

/-- Claim C2, amended.  Starting from freshly attached empty contexts with
the same (non-empty) method name, the two variants are observationally
equivalent — same observation sequence (declaration errors, read results
and invoked callables) and corresponding final states (`StRel`: same method
name, identical registries, same keys in the same order holding related
properties with identical subjects) — for every operation sequence that
never declares or assigns at the method name and only stores tame values:
no throwing factories and no factories resolving to a plain callable.
Outside this fragment the variants differ (see the counterexample, and the
enumerability difference settled with claim C6). -/
theorem variants_equivalent_on_tame_programs
    (m : String) (ops : List Op) (hm : m ≠ "") (hops : opsOk m ops = true) :
    ∃ sB, attachB none (some m) = .ok sB ∧
      (runA (attachA [] (some m)).1 ops).2 = (runB sB ops).2 ∧
      StRel (runA (attachA [] (some m)).1 ops).1 (runB sB ops).1 := by
  have hA : attachA [] (some m) =
      ({ props := [(m, .declMethod true true true)], cache := [], method := m },
       none) := by
    simp [attachA, defaultName, hm, baseProps, lookupProp, setProp]
  have hB : attachB none (some m) =
      .ok { props := [(m, .declMethod false false false)]
            cache := []
            method := m } := by
    simp [attachB, defaultName, hm, basePropsB, lookupProp, setProp]
  refine ⟨_, hB, ?_⟩
  have h0 : StRel (attachA [] (some m)).1
      { props := [(m, PropB.declMethod false false false)]
        cache := []
        method := m } := by
    rw [hA]
    exact ⟨rfl, rfl, List.not_mem_nil _,
      List.Forall₂.cons ⟨rfl, rfl⟩ List.Forall₂.nil⟩
  refine StRel_run h0 ops ?_
  rw [hA]
  exact hops

/-- Claim C2, witness: `variants_equivalent_on_tame_programs` on a concrete
tame program: declare a factory, read twice, overwrite by assignment, read
again, restore. -/
theorem variants_equivalent_on_tame_programs_witness :
    ("set" : String) ≠ "" ∧
    opsOk "set" [.declare "n" (some litFactory), .get "n", .get "n",
      .set "n" (.prim 5), .get "n", .restore] = true ∧
    (∃ sB, attachB none (some "set") = .ok sB ∧
      (runA (attachA [] (some "set")).1
          [.declare "n" (some litFactory), .get "n", .get "n",
            .set "n" (.prim 5), .get "n", .restore]).2 =
        (runB sB [.declare "n" (some litFactory), .get "n", .get "n",
          .set "n" (.prim 5), .get "n", .restore]).2 ∧
      StRel (runA (attachA [] (some "set")).1
          [.declare "n" (some litFactory), .get "n", .get "n",
            .set "n" (.prim 5), .get "n", .restore]).1
        (runB sB [.declare "n" (some litFactory), .get "n", .get "n",
          .set "n" (.prim 5), .get "n", .restore]).1) :=
  ⟨by decide, by decide,
    variants_equivalent_on_tame_programs "set"
      [.declare "n" (some litFactory), .get "n", .get "n",
        .set "n" (.prim 5), .get "n", .restore]
      (by decide) (by decide)⟩

/-! ## Claim C4 -/

theorem attachB_frozenB :
    attachB (some [("x", (.prim 1, false, false, false))]) none = .ok frozenB := by
  rfl

/-- Claim C4, counterexample.  The claim asserts that after a failed
property definition the name is *not* present in the Declaration Registry.
In both variants `cache.push(name)` runs before `Object.defineProperty`:
declaring `"x"` over a non-configurable property throws `TypeError`, yet
`"x"` is in the registry afterwards. -/
theorem failed_declare_leaves_name_registered :
    (declareA frozenA "x" (some (.prim 2))).2 = some .typeErr ∧
    "x" ∈ (declareA frozenA "x" (some (.prim 2))).1.cache := by
  decide

/-- Claim C4, amended.  In both variants the registry push precedes the
property definition, so a declaration that fails on a non-configurable
existing property leaves the name registered (the context itself is
unchanged and the `TypeError` propagates).  Restore stays safe regardless:
it empties the registry and the sloppy-mode `delete` of the
non-configurable property is a silent no-op, leaving the property in
place. -/
theorem registry_push_precedes_definition
    (sA : StateA) (sB : StateB) (n : String) (v v' : Option JsVal)
    (pA : PropA) (pB : PropB)
    (hA : lookupProp sA.props n = some pA) (hcA : pA.configurable = false)
    (hB : lookupProp sB.props n = some pB) (hcB : pB.configurable = false) :
    ((declareA sA n v).1.cache = n :: sA.cache ∧
      (declareA sA n v).2 = some .typeErr ∧
      (declareA sA n v).1.props = sA.props ∧
      (restoreA (declareA sA n v).1).cache = [] ∧
      lookupProp (restoreA (declareA sA n v).1).props n = some pA) ∧
    ((declareB sB n v').1.cache = n :: sB.cache ∧
      (declareB sB n v').2 = some .typeErr ∧
      (declareB sB n v').1.props = sB.props ∧
      (restoreB (declareB sB n v').1).cache = [] ∧
      lookupProp (restoreB (declareB sB n v').1).props n = some pB) := by
  have hdA : declareA sA n v = ({ sA with cache := n :: sA.cache }, some .typeErr) := by
    simp [declareA, hA, hcA]
  have hdB : declareB sB n v' = ({ sB with cache := n :: sB.cache }, some .typeErr) := by
    simp [declareB, hB, hcB]
  refine ⟨⟨?_, ?_, ?_, rfl, ?_⟩, ⟨?_, ?_, ?_, rfl, ?_⟩⟩ <;>
    simp only [hdA, hdB, restoreA, restoreB]
  · exact lookup_deleteAll_nonconfigurable PropA.configurable _ _ n pA hA hcA
  · exact lookup_deleteAll_nonconfigurable PropB.configurable _ _ n pB hB hcB

/-- Claim C4, witness: `registry_push_precedes_definition` applied to a
context with a non-configurable property `"x"` under both variants. -/
theorem registry_push_precedes_definition_witness :
    lookupProp frozenA.props "x" = some (.dataProp (.prim 1) false false false) ∧
    PropA.configurable (.dataProp (.prim 1) false false false) = false ∧
    lookupProp frozenB.props "x" = some (.dataProp (.prim 1) false false false) ∧
    PropB.configurable (.dataProp (.prim 1) false false false) = false ∧
    (((declareA frozenA "x" (some (.prim 2))).1.cache = "x" :: frozenA.cache ∧
      (declareA frozenA "x" (some (.prim 2))).2 = some .typeErr ∧
      (declareA frozenA "x" (some (.prim 2))).1.props = frozenA.props ∧
      (restoreA (declareA frozenA "x" (some (.prim 2))).1).cache = [] ∧
      lookupProp (restoreA (declareA frozenA "x" (some (.prim 2))).1).props "x" =
        some (.dataProp (.prim 1) false false false)) ∧
    ((declareB frozenB "x" (some (.prim 2))).1.cache = "x" :: frozenB.cache ∧
      (declareB frozenB "x" (some (.prim 2))).2 = some .typeErr ∧
      (declareB frozenB "x" (some (.prim 2))).1.props = frozenB.props ∧
      (restoreB (declareB frozenB "x" (some (.prim 2))).1).cache = [] ∧
      lookupProp (restoreB (declareB frozenB "x" (some (.prim 2))).1).props "x" =
        some (.dataProp (.prim 1) false false false))) :=
  ⟨by decide, by decide, by decide, by decide,
    registry_push_precedes_definition frozenA frozenB "x"
      (some (.prim 2)) (some (.prim 2)) _ _ (by decide) (by decide)
      (by decide) (by decide)⟩

/-! ## Claim C5 -/

/-- Claim C5, counterexample.  The claim says `attach(context)` with the
method name omitted installs the declaration function at `context["set"]`.
In the flag-based variant (`src/lazy.js`) the default is
`method = method || 'lazy'`: on an empty context nothing is installed at
`"set"`, the declaration function sits at `"lazy"`. -/
theorem default_name_not_set_in_flag_variant :
    (attachA [] none).1.method = "lazy" ∧
    lookupProp (attachA [] none).1.props "set" = none ∧
    lookupProp (attachA [] none).1.props "lazy" =
      some (.declMethod true true true) := by
  decide

/-- Claim C5, amended.  With the method name omitted (and no pre-existing
property at the default name), the self-rewriting variant installs the
declaration function at `"set"`, while the flag-based variant installs it
at `"lazy"`; neither attachment raises in that situation. -/
theorem default_method_names
    (baseA : List (String × (JsVal × Bool × Bool × Bool)))
    (baseB : Option (List (String × (JsVal × Bool × Bool × Bool))))
    (hA : lookupProp baseA "lazy" = none)
    (hB : lookupProp (baseB.getD []) "set" = none) :
    (attachA baseA none).1.method = "lazy" ∧
    (attachA baseA none).2 = none ∧
    lookupProp (attachA baseA none).1.props "lazy" =
      some (.declMethod true true true) ∧
    ∃ s, attachB baseB none = .ok s ∧ s.method = "set" ∧
      lookupProp s.props "set" = some (.declMethod false false false) := by
  have hdA : attachA baseA none =
      ({ props := setProp (baseProps baseA) "lazy" (.declMethod true true true)
         cache := []
         method := "lazy" }, none) := by
    simp [attachA, defaultName, hA]
  refine ⟨?_, ?_, ?_, ?_⟩
  · rw [hdA]
  · rw [hdA]
  · rw [hdA]
    exact lookup_setProp_self _ _ _
  · refine ⟨⟨setProp (basePropsB (baseB.getD [])) "set"
        (.declMethod false false false), [], "set"⟩,
      ?_, rfl, lookup_setProp_self _ _ _⟩
    simp only [attachB, defaultName]
    rw [hB]

/-- Claim C5, witness: `default_method_names` on empty contexts. -/
theorem default_method_names_witness :
    lookupProp ([] : List (String × (JsVal × Bool × Bool × Bool))) "lazy" =
      none ∧
    lookupProp ((none : Option (List (String × (JsVal × Bool × Bool × Bool)))).getD
      []) "set" = none ∧
    ((attachA [] none).1.method = "lazy" ∧
      (attachA [] none).2 = none ∧
      lookupProp (attachA [] none).1.props "lazy" =
        some (.declMethod true true true) ∧
      ∃ s, attachB none none = .ok s ∧ s.method = "set" ∧
        lookupProp s.props "set" = some (.declMethod false false false)) :=
  ⟨by decide, by decide, default_method_names [] none (by decide) (by decide)⟩

/-! ## Claim C7 -/

/-- Claim C7, confirmed.  In both variants, provided every registered name
currently maps to a configurable own property or to nothing (which is how
the engine always leaves them — declared slots are configurable), restore
empties the Declaration Registry and removes every registered name from the
context, tolerating duplicate registry entries; restoring again is a no-op,
and restore on an empty registry changes nothing.  Being a total function,
restore never raises. -/
theorem restore_removes_all_declared
    (sA : StateA) (sB : StateB)
    (hA : ∀ n ∈ sA.cache, cfgOkAt PropA.configurable sA.props n = true)
    (hB : ∀ n ∈ sB.cache, cfgOkAt PropB.configurable sB.props n = true) :
    ((restoreA sA).cache = [] ∧
      (∀ n ∈ sA.cache, lookupProp (restoreA sA).props n = none) ∧
      restoreA (restoreA sA) = restoreA sA ∧
      (sA.cache = [] → restoreA sA = sA)) ∧
    ((restoreB sB).cache = [] ∧
      (∀ n ∈ sB.cache, lookupProp (restoreB sB).props n = none) ∧
      restoreB (restoreB sB) = restoreB sB ∧
      (sB.cache = [] → restoreB sB = sB)) := by
  refine ⟨⟨rfl, ?_, rfl, ?_⟩, ⟨rfl, ?_, rfl, ?_⟩⟩
  · intro n hn
    exact lookup_deleteAll_mem PropA.configurable sA.cache sA.props n hn
      (fun n' p hn' hl => cfgOkAt_some _ _ _ p (hA n' hn') hl)
  · intro h
    obtain ⟨props, cache, method⟩ := sA
    simp only at h
    subst h
    rfl
  · intro n hn
    exact lookup_deleteAll_mem PropB.configurable sB.cache sB.props n hn
      (fun n' p hn' hl => cfgOkAt_some _ _ _ p (hB n' hn') hl)
  · intro h
    obtain ⟨props, cache, method⟩ := sB
    simp only at h
    subst h
    rfl

/-- Claim C7, witness: `restore_removes_all_declared` applied to contexts
whose registries hold a duplicate entry for `"n"`. -/
theorem restore_removes_all_declared_witness :
    (∀ n ∈ dupA.cache, cfgOkAt PropA.configurable dupA.props n = true) ∧
    (∀ n ∈ dupB.cache, cfgOkAt PropB.configurable dupB.props n = true) ∧
    (((restoreA dupA).cache = [] ∧
      (∀ n ∈ dupA.cache, lookupProp (restoreA dupA).props n = none) ∧
      restoreA (restoreA dupA) = restoreA dupA ∧
      (dupA.cache = [] → restoreA dupA = dupA)) ∧
    ((restoreB dupB).cache = [] ∧
      (∀ n ∈ dupB.cache, lookupProp (restoreB dupB).props n = none) ∧
      restoreB (restoreB dupB) = restoreB dupB ∧
      (dupB.cache = [] → restoreB dupB = dupB))) :=
  ⟨by decide, by decide,
    restore_removes_all_declared dupA dupB (by decide) (by decide)⟩

/-! ## Claim C6 -/

theorem insertionEnumKeys_append {α : Type} (en : α → Bool)
    (ps qs : List (String × α)) :
    insertionEnumKeys en (ps ++ qs) =
      insertionEnumKeys en ps ++ insertionEnumKeys en qs := by
  simp [insertionEnumKeys]

theorem insertIdx_perm (p : Nat × String) (l : List (Nat × String)) :
    (insertIdx p l).Perm (p :: l) := by
  induction l with
  | nil => exact List.Perm.refl _
  | cons q qs ih =>
      by_cases hlt : p.1 < q.1
      · simp only [insertIdx, if_pos hlt]
        exact List.Perm.refl _
      · simp only [insertIdx, if_neg hlt]
        exact (ih.cons q).trans (List.Perm.swap p q qs)

theorem sortIdx_perm (l : List (Nat × String)) : (sortIdx l).Perm l := by
  induction l with
  | nil => exact List.Perm.refl _
  | cons p ps ih => exact (insertIdx_perm p (sortIdx ps)).trans (ih.cons p)

theorem filterMap_arrayIndex_snd (keys : List String) :
    (keys.filterMap (fun k => (arrayIndex k).map (fun n => (n, k)))).map
        Prod.snd =
      keys.filter (fun k => (arrayIndex k).isSome) := by
  induction keys with
  | nil => rfl
  | cons k ks ih =>
      cases h : arrayIndex k with
      | none => simp [List.filterMap_cons, List.filter_cons, h, ih]
      | some n => simp [List.filterMap_cons, List.filter_cons, h, ih]

/-- The `OrdinaryOwnPropertyKeys` reordering is a permutation: it changes
only the order of the keys, never the collection. -/
theorem orderKeys_perm (keys : List String) : (orderKeys keys).Perm keys := by
  have h1 : ((sortIdx (keys.filterMap
        (fun k => (arrayIndex k).map (fun n => (n, k))))).map Prod.snd).Perm
      (keys.filter (fun k => (arrayIndex k).isSome)) := by
    rw [← filterMap_arrayIndex_snd keys]
    exact (sortIdx_perm _).map Prod.snd
  have hfun : (fun k => (arrayIndex k).isNone) =
      (fun k => !(arrayIndex k).isSome) := by
    funext k
    cases arrayIndex k <;> rfl
  show ((sortIdx _).map Prod.snd ++
      keys.filter (fun k => (arrayIndex k).isNone)).Perm keys
  refine (h1.append_right _).trans ?_
  rw [hfun]
  exact List.filter_append_perm _ keys

theorem enumKeys_perm {α : Type} (en : α → Bool)
    (props : List (String × α)) :
    (enumKeys en props).Perm (insertionEnumKeys en props) :=
  orderKeys_perm _

/-- Declaring distinct fresh names: at the raw insertion-order level,
variant B appends exactly the declared names to the enumerable keys and
variant A leaves them unchanged. -/
theorem declareList_fresh_insertion_keys
    (sA : StateA) (sB : StateB) (ds : List (String × Option JsVal))
    (hFreshA : ∀ d ∈ ds, lookupProp sA.props d.1 = none)
    (hFreshB : ∀ d ∈ ds, lookupProp sB.props d.1 = none)
    (hNodup : (ds.map Prod.fst).Nodup) :
    insertionEnumKeys PropB.enumerable (declareListB sB ds).props =
      insertionEnumKeys PropB.enumerable sB.props ++ ds.map Prod.fst ∧
    insertionEnumKeys PropA.enumerable (declareListA sA ds).props =
      insertionEnumKeys PropA.enumerable sA.props := by
  induction ds generalizing sA sB with
  | nil => simp [declareListA, declareListB]
  | cons d ds ih =>
      obtain ⟨n, v⟩ := d
      have hfA : lookupProp sA.props n = none := hFreshA ⟨n, v⟩ (by simp)
      have hfB : lookupProp sB.props n = none := hFreshB ⟨n, v⟩ (by simp)
      have hnotin : n ∉ ds.map Prod.fst := by
        simp only [List.map_cons, List.nodup_cons] at hNodup
        exact hNodup.1
      have hNodup' : (ds.map Prod.fst).Nodup := by
        simp only [List.map_cons, List.nodup_cons] at hNodup
        exact hNodup.2
      have hne : ∀ d' ∈ ds, d'.1 ≠ n := by
        intro d' hd' he
        exact hnotin (he ▸ List.mem_map_of_mem Prod.fst hd')
      have hFreshA' : ∀ d' ∈ ds,
          lookupProp (declareA sA n v).1.props d'.1 = none := by
        intro d' hd'
        rw [declareA_fresh sA n v hfA]
        simpa [lookup_setProp_ne sA.props n d'.1 _ (hne d' hd')] using
          hFreshA d' (List.mem_cons_of_mem _ hd')
      have hFreshB' : ∀ d' ∈ ds,
          lookupProp (declareB sB n v).1.props d'.1 = none := by
        intro d' hd'
        rw [declareB_fresh sB n v hfB]
        simpa [lookup_setProp_ne sB.props n d'.1 _ (hne d' hd')] using
          hFreshB d' (List.mem_cons_of_mem _ hd')
      obtain ⟨ihB, ihA⟩ := ih (declareA sA n v).1 (declareB sB n v).1
        hFreshA' hFreshB' hNodup'
      constructor
      · rw [declareListB, ihB, declareB_fresh sB n v hfB]
        simp only
        rw [setProp_absent sB.props n _ hfB, insertionEnumKeys_append]
        simp [insertionEnumKeys, PropB.enumerable]
      · rw [declareListA, ihA, declareA_fresh sA n v hfA]
        simp only
        rw [setProp_absent sA.props n _ hfA, insertionEnumKeys_append]
        simp [insertionEnumKeys, PropA.enumerable]

/-- Claim C6, counterexample.  The claim asserts every declared property is
enumerable, so that after declaring `n` fresh names the context's own
enumerable keys are exactly those names plus pre-existing ones.  In the
flag-based variant (`src/lazy.js`) the descriptor passed to
`Object.defineProperty` omits `enumerable` (defaulting to `false`): on an
empty context attached with method `"m"`, after declaring `"n"` the only
enumerable key is the engine's own `"m"` (installed by plain assignment,
hence enumerable) and `"n"` is missing. -/
theorem flag_variant_props_not_enumerable :
    enumKeys PropA.enumerable (declaredA (.prim 0)).props = ["m"] ∧
    ¬ "n" ∈ enumKeys PropA.enumerable (declaredA (.prim 0)).props := by
  decide

/-- Claim C6, amended.  Declaring a list of distinct fresh names: in the
self-rewriting variant (`enumerable: true`) the context's enumerable keys
afterwards are, as a collection, exactly the previous enumerable keys plus
the declared names (`Object.keys` presents them with array-index-like keys
first in ascending numeric order, then the rest in creation order, so only
the key collection — a permutation — is asserted); in the flag-based
variant the declared properties are non-enumerable and the enumerable key
listing is unchanged. -/
theorem enumerability_by_variant
    (sA : StateA) (sB : StateB) (ds : List (String × Option JsVal))
    (hFreshA : ∀ d ∈ ds, lookupProp sA.props d.1 = none)
    (hFreshB : ∀ d ∈ ds, lookupProp sB.props d.1 = none)
    (hNodup : (ds.map Prod.fst).Nodup) :
    (enumKeys PropB.enumerable (declareListB sB ds).props).Perm
      (enumKeys PropB.enumerable sB.props ++ ds.map Prod.fst) ∧
    enumKeys PropA.enumerable (declareListA sA ds).props =
      enumKeys PropA.enumerable sA.props := by
  obtain ⟨hB', hA'⟩ :=
    declareList_fresh_insertion_keys sA sB ds hFreshA hFreshB hNodup
  constructor
  · have p1 := enumKeys_perm PropB.enumerable (declareListB sB ds).props
    rw [hB'] at p1
    exact p1.trans
      (((enumKeys_perm PropB.enumerable sB.props).symm).append_right _)
  · exact congrArg orderKeys hA'

/-- Claim C6, witness: `enumerability_by_variant` declaring the fresh
distinct names `"a"`, `"b"` on freshly attached contexts: variant B lists
exactly those names (its method is non-enumerable), variant A lists only
its enumerable method property. -/
theorem enumerability_by_variant_witness :
    (∀ d ∈ [("a", some (JsVal.prim 0)), ("b", some (JsVal.prim 1))],
      lookupProp sampleA.props d.1 = none) ∧
    (∀ d ∈ [("a", some (JsVal.prim 0)), ("b", some (JsVal.prim 1))],
      lookupProp sampleB.props d.1 = none) ∧
    (([("a", some (JsVal.prim 0)), ("b", some (JsVal.prim 1))].map
        Prod.fst).Nodup) ∧
    ((enumKeys PropB.enumerable
        (declareListB sampleB
          [("a", some (JsVal.prim 0)), ("b", some (JsVal.prim 1))]).props).Perm
      (enumKeys PropB.enumerable sampleB.props ++
        [("a", some (JsVal.prim 0)), ("b", some (JsVal.prim 1))].map Prod.fst) ∧
    enumKeys PropA.enumerable
        (declareListA sampleA
          [("a", some (JsVal.prim 0)), ("b", some (JsVal.prim 1))]).props =
      enumKeys PropA.enumerable sampleA.props) :=
  ⟨by decide, by decide, by decide,
    enumerability_by_variant sampleA sampleB
      [("a", some (JsVal.prim 0)), ("b", some (JsVal.prim 1))]
      (by decide) (by decide) (by decide)⟩

/-! ## Claim C9 -/

theorem baseProps_lookup (base : List (String × (JsVal × Bool × Bool × Bool)))
    (m : String) :
    lookupProp (baseProps base) m =
      (lookupProp base m).map
        (fun q => PropA.dataProp q.1 q.2.1 q.2.2.1 q.2.2.2) := by
  induction base with
  | nil => rfl
  | cons kp rest ih =>
      obtain ⟨k, q⟩ := kp
      by_cases h : k = m
      · simp [baseProps, lookupProp, h]
      · simp [baseProps, lookupProp, h]
        exact ih

theorem basePropsB_lookup (base : List (String × (JsVal × Bool × Bool × Bool)))
    (m : String) :
    lookupProp (basePropsB base) m =
      (lookupProp base m).map
        (fun q => PropB.dataProp q.1 q.2.1 q.2.2.1 q.2.2.2) := by
  induction base with
  | nil => rfl
  | cons kp rest ih =>
      obtain ⟨k, q⟩ := kp
      by_cases h : k = m
      · simp [basePropsB, lookupProp, h]
      · simp [basePropsB, lookupProp, h]
        exact ih

/-- Claim C9, counterexample.  The claim asserts `attach` raises no error
for any object context, silently overwriting an existing property at the
method name.  In the self-rewriting variant,
`Object.defineProperty(context, method, {value: ...})` over a
non-configurable *and* non-writable existing property throws `TypeError`;
and even the flag-based variant raises: when the method-name property is
non-writable and holds `null`/`undefined`, the assignment is a silent
no-op and the follow-up `context[method].restore = ...` throws. -/
theorem attach_raises_on_nonwritable_nonconfigurable_method :
    attachB (some [("set", (.prim 0, false, true, false))]) none =
      .error .typeErr ∧
    (attachA [("lazy", (.vnull, false, true, true))] none).2 =
      some .typeErr := by
  exact ⟨rfl, rfl⟩

/-- Claim C9, amended.  The flag-based variant installs the declaration
function by sloppy-mode assignment: an existing writable property at the
method name is overwritten (keeping its attributes) and nothing raises; a
non-writable one is silently left unchanged — not overwritten — and the
follow-up `context[method].restore = ...` assignment then throws
`TypeError` exactly when the retained value is `null`/`undefined`.  The
self-rewriting variant uses `Object.defineProperty` with a value-only
descriptor: it succeeds on an absent, configurable, or
non-configurable-but-writable property (replacing only the value and
retaining the attributes of an existing one) and throws `TypeError` on a
non-configurable non-writable property; attach returns the context on
success. -/
theorem attach_error_behavior
    (base1 base2 base3 base4 base5 base6 :
      List (String × (JsVal × Bool × Bool × Bool)))
    (mo1 mo2 mo3 mo4 mo5 mo6 : Option String)
    (v1 v2 v4 v5 v6 : JsVal)
    (e1 c1 e2 c2 e3 c3 w4 e4 e5 e6 : Bool)
    (h1 : lookupProp base1 (defaultName "lazy" mo1) = some (v1, true, e1, c1))
    (h2 : lookupProp base2 (defaultName "lazy" mo2) = some (v2, false, e2, c2))
    (hv2 : v2 ≠ .vnull)
    (h3 : lookupProp base3 (defaultName "lazy" mo3) =
      some (.vnull, false, e3, c3))
    (h4 : lookupProp base4 (defaultName "set" mo4) = some (v4, w4, e4, true))
    (h5 : lookupProp base5 (defaultName "set" mo5) = some (v5, true, e5, false))
    (h6 : lookupProp base6 (defaultName "set" mo6) =
      some (v6, false, e6, false)) :
    ((attachA base1 mo1).2 = none ∧
      lookupProp (attachA base1 mo1).1.props (defaultName "lazy" mo1) =
        some (.declMethod true e1 c1)) ∧
    ((attachA base2 mo2).2 = none ∧
      lookupProp (attachA base2 mo2).1.props (defaultName "lazy" mo2) =
        some (.dataProp v2 false e2 c2)) ∧
    (attachA base3 mo3).2 = some .typeErr ∧
    (∃ s4, attachB (some base4) mo4 = .ok s4 ∧
      s4.method = defaultName "set" mo4 ∧
      lookupProp s4.props (defaultName "set" mo4) =
        some (.declMethod w4 e4 true)) ∧
    (∃ s5, attachB (some base5) mo5 = .ok s5 ∧
      lookupProp s5.props (defaultName "set" mo5) =
        some (.declMethod true e5 false)) ∧
    attachB (some base6) mo6 = .error .typeErr := by
  refine ⟨?_, ?_, ?_, ?_, ?_, ?_⟩
  · have hd : attachA base1 mo1 =
        ({ props := setProp (baseProps base1) (defaultName "lazy" mo1)
              (.declMethod true e1 c1)
           cache := []
           method := defaultName "lazy" mo1 }, none) := by
      simp [attachA, h1]
    rw [hd]
    exact ⟨rfl, lookup_setProp_self _ _ _⟩
  · cases v2 with
    | vnull => exact absurd rfl hv2
    | prim k =>
        have hd : attachA base2 mo2 =
            ({ props := baseProps base2, cache := []
               method := defaultName "lazy" mo2 }, none) := by
          simp [attachA, h2]
        rw [hd]
        refine ⟨rfl, ?_⟩
        rw [baseProps_lookup, h2]
        rfl
    | func f mk bo =>
        have hd : attachA base2 mo2 =
            ({ props := baseProps base2, cache := []
               method := defaultName "lazy" mo2 }, none) := by
          simp [attachA, h2]
        rw [hd]
        refine ⟨rfl, ?_⟩
        rw [baseProps_lookup, h2]
        rfl
  · have hd : attachA base3 mo3 =
        ({ props := baseProps base3, cache := []
           method := defaultName "lazy" mo3 }, some .typeErr) := by
      simp [attachA, h3]
    rw [hd]
  · have hd : attachB (some base4) mo4 =
        .ok { props := setProp (basePropsB base4) (defaultName "set" mo4)
                (.declMethod w4 e4 true)
              cache := []
              method := defaultName "set" mo4 } := by
      simp [attachB, h4]
    exact ⟨_, hd, rfl, lookup_setProp_self _ _ _⟩
  · have hd : attachB (some base5) mo5 =
        .ok { props := setProp (basePropsB base5) (defaultName "set" mo5)
                (.declMethod true e5 false)
              cache := []
              method := defaultName "set" mo5 } := by
      simp [attachB, h5]
    exact ⟨_, hd, lookup_setProp_self _ _ _⟩
  · simp [attachB, h6]

/-- Claim C9, witness: `attach_error_behavior` applied to six concrete
contexts: a writable, a non-writable non-null, and a non-writable
null-holding property at `"lazy"` for the flag-based variant; a
configurable, a non-configurable writable, and a non-configurable
non-writable property at `"set"` for the self-rewriting variant. -/
theorem attach_error_behavior_witness :
    lookupProp [("lazy", ((JsVal.prim 1 : JsVal), true, true, true))]
      (defaultName "lazy" none) = some (.prim 1, true, true, true) ∧
    lookupProp [("lazy", ((JsVal.prim 2 : JsVal), false, true, true))]
      (defaultName "lazy" none) = some (.prim 2, false, true, true) ∧
    (JsVal.prim 2) ≠ .vnull ∧
    lookupProp [("lazy", ((JsVal.vnull : JsVal), false, true, true))]
      (defaultName "lazy" none) = some (.vnull, false, true, true) ∧
    lookupProp [("set", ((JsVal.prim 4 : JsVal), true, true, true))]
      (defaultName "set" none) = some (.prim 4, true, true, true) ∧
    lookupProp [("set", ((JsVal.prim 5 : JsVal), true, true, false))]
      (defaultName "set" none) = some (.prim 5, true, true, false) ∧
    lookupProp [("set", ((JsVal.prim 6 : JsVal), false, true, false))]
      (defaultName "set" none) = some (.prim 6, false, true, false) ∧
    ((((attachA [("lazy", (.prim 1, true, true, true))] none).2 = none ∧
      lookupProp (attachA [("lazy", (.prim 1, true, true, true))] none).1.props
          (defaultName "lazy" none) = some (.declMethod true true true)) ∧
    (((attachA [("lazy", (.prim 2, false, true, true))] none).2 = none ∧
      lookupProp (attachA [("lazy", (.prim 2, false, true, true))] none).1.props
          (defaultName "lazy" none) =
        some (.dataProp (.prim 2) false true true))) ∧
    (attachA [("lazy", (.vnull, false, true, true))] none).2 =
      some .typeErr ∧
    (∃ s4, attachB (some [("set", (.prim 4, true, true, true))]) none =
        .ok s4 ∧
      s4.method = defaultName "set" none ∧
      lookupProp s4.props (defaultName "set" none) =
        some (.declMethod true true true)) ∧
    (∃ s5, attachB (some [("set", (.prim 5, true, true, false))]) none =
        .ok s5 ∧
      lookupProp s5.props (defaultName "set" none) =
        some (.declMethod true true false)) ∧
    attachB (some [("set", (.prim 6, false, true, false))]) none =
      .error .typeErr)) :=
  ⟨by decide, by decide, by decide, by decide, by decide, by decide, by decide,
    attach_error_behavior
      [("lazy", (.prim 1, true, true, true))]
      [("lazy", (.prim 2, false, true, true))]
      [("lazy", (.vnull, false, true, true))]
      [("set", (.prim 4, true, true, true))]
      [("set", (.prim 5, true, true, false))]
      [("set", (.prim 6, false, true, false))]
      none none none none none none
      (.prim 1) (.prim 2) (.prim 4) (.prim 5) (.prim 6)
      true true true true true true true true true true
      (by decide) (by decide) (by decide) (by decide) (by decide) (by decide)
      (by decide)⟩

/-! ## Claim C10 -/

/-- Claim C10, confirmed.  Restore only ever deletes names found in the
Declaration Registry: any name outside the registry — in particular the
method name, which is only registered if the user declares a lazy property
over it — keeps exactly the property it had, and afterwards the declaration
function still works: declaring a name that is absent after the restore
succeeds and installs a fresh pending slot. -/
theorem restore_frame
    (sA : StateA) (sB : StateB) (k : String) (v v' : Option JsVal)
    (hkA : k ∉ sA.cache) (hkB : k ∉ sB.cache)
    (hmA : sA.method ∉ sA.cache) (hmB : sB.method ∉ sB.cache) :
    (lookupProp (restoreA sA).props k = lookupProp sA.props k ∧
      lookupProp (restoreA sA).props sA.method = lookupProp sA.props sA.method ∧
      (lookupProp (restoreA sA).props k = none →
        (declareA (restoreA sA) k v).2 = none ∧
        lookupProp (declareA (restoreA sA) k v).1.props k =
          some (.lazySlot (v.getD .vnull) false false))) ∧
    (lookupProp (restoreB sB).props k = lookupProp sB.props k ∧
      lookupProp (restoreB sB).props sB.method = lookupProp sB.props sB.method ∧
      (lookupProp (restoreB sB).props k = none →
        (declareB (restoreB sB) k v').2 = none ∧
        lookupProp (declareB (restoreB sB) k v').1.props k =
          some (.lazySlot (v'.getD .vnull) true))) := by
  refine ⟨⟨?_, ?_, ?_⟩, ⟨?_, ?_, ?_⟩⟩
  · exact lookup_deleteAll_not_mem PropA.configurable sA.cache sA.props k hkA
  · exact lookup_deleteAll_not_mem PropA.configurable sA.cache sA.props
      sA.method hmA
  · intro habs
    rw [declareA_fresh (restoreA sA) k v habs]
    exact ⟨rfl, lookup_setProp_self _ _ _⟩
  · exact lookup_deleteAll_not_mem PropB.configurable sB.cache sB.props k hkB
  · exact lookup_deleteAll_not_mem PropB.configurable sB.cache sB.props
      sB.method hmB
  · intro habs
    rw [declareB_fresh (restoreB sB) k v' habs]
    exact ⟨rfl, lookup_setProp_self _ _ _⟩

/-- Claim C10, witness: `restore_frame` applied to contexts with `"n"`
declared: the method `"m"` and the undeclared name `"z"` survive the
restore, and declaring `"z"` afterwards works. -/
theorem restore_frame_witness :
    ¬ "z" ∈ (declaredA (.prim 0)).cache ∧
    ¬ "z" ∈ (declaredB (.prim 0)).cache ∧
    ¬ (declaredA (.prim 0)).method ∈ (declaredA (.prim 0)).cache ∧
    ¬ (declaredB (.prim 0)).method ∈ (declaredB (.prim 0)).cache ∧
    ((lookupProp (restoreA (declaredA (.prim 0))).props "z" =
        lookupProp (declaredA (.prim 0)).props "z" ∧
      lookupProp (restoreA (declaredA (.prim 0))).props
          (declaredA (.prim 0)).method =
        lookupProp (declaredA (.prim 0)).props (declaredA (.prim 0)).method ∧
      (lookupProp (restoreA (declaredA (.prim 0))).props "z" = none →
        (declareA (restoreA (declaredA (.prim 0))) "z" (some (.prim 4))).2 =
          none ∧
        lookupProp
            (declareA (restoreA (declaredA (.prim 0))) "z"
              (some (.prim 4))).1.props "z" =
          some (.lazySlot ((some (JsVal.prim 4)).getD .vnull) false false))) ∧
    (lookupProp (restoreB (declaredB (.prim 0))).props "z" =
        lookupProp (declaredB (.prim 0)).props "z" ∧
      lookupProp (restoreB (declaredB (.prim 0))).props
          (declaredB (.prim 0)).method =
        lookupProp (declaredB (.prim 0)).props (declaredB (.prim 0)).method ∧
      (lookupProp (restoreB (declaredB (.prim 0))).props "z" = none →
        (declareB (restoreB (declaredB (.prim 0))) "z" (some (.prim 4))).2 =
          none ∧
        lookupProp
            (declareB (restoreB (declaredB (.prim 0))) "z"
              (some (.prim 4))).1.props "z" =
          some (.lazySlot ((some (JsVal.prim 4)).getD .vnull) true)))) :=
  ⟨by decide, by decide, by decide, by decide,
    restore_frame (declaredA (.prim 0)) (declaredB (.prim 0)) "z"
      (some (.prim 4)) (some (.prim 4))
      (by decide) (by decide) (by decide) (by decide)⟩

/-- Claim C8, witness: `mocked_subject_returned_uninvoked` applied to the
concrete mock `mockedSubject` declared as `"n"`, read three times. -/
theorem mocked_subject_returned_uninvoked_witness :
    lookupProp (declaredA mockedSubject).props "n" =
      some (.lazySlot (.func 3 true (.ret (.prim 1))) false false) ∧
    lookupProp (declaredB mockedSubject).props "n" =
      some (.lazySlot (.func 3 true (.ret (.prim 1))) true) ∧
    (getsA (declaredA mockedSubject) "n" 3 =
        List.replicate 3 (.val (.func 3 true (.ret (.prim 1))), []) ∧
      getsB (declaredB mockedSubject) "n" 3 =
        List.replicate 3 (.val (.func 3 true (.ret (.prim 1))), [])) :=
  ⟨by decide, by decide,
    mocked_subject_returned_uninvoked (declaredA mockedSubject)
      (declaredB mockedSubject) "n" 3 (.ret (.prim 1)) false false true 3
      (by decide) (by decide)⟩

end LazyJs
